import Mathlib

/-!
Shallow embedding of the Audacity mixdown engine
(src/libraries/lib-sample-track/Mix.cpp) over exact rational arithmetic.

Times, rates, sample values and gains are modelled as rationals (the C++
uses IEEE doubles and floats); 64-bit sample counts are modelled as Int;
buffer sizes as Nat.  External collaborators that Mix.cpp only consumes
(SampleTrack, Resample, BoundedEnvelope, the lib-math helpers) are
modelled from the specification, as marked on each definition.
-/

/-- Truncation of a rational toward zero, as in a C++ cast from double to
an integer type (sampleCount built from a double). -/
def ratTrunc (x : ℚ) : ℤ := Int.tdiv x.num x.den

/-- Floor of a rational to an integer. -/
def ratFloor (x : ℚ) : ℤ := Int.fdiv x.num x.den

/-- Modelled from the spec: SampleTrack::TimeToLongSamples maps a time in
seconds to a signed 64-bit sample index, rounding half up
(floor(t * rate + 1/2)); the source of the track class is not part of
this repository snapshot. -/
def timeToLongSamples (rate t : ℚ) : ℤ := ratFloor (t * rate + 1/2)

/-- Modelled from the spec: lib-math limitSampleBufferSize, the helper Mix.cpp
uses to bound a requested read; it takes the minimum of the buffer size and
the (possibly negative) remaining sample count, clamped below at zero
(the engine treats a nonpositive remainder as nothing left to read). -/
def limitSampleBufferSize (bufferSize : ℕ) (limit : ℤ) : ℕ :=
  (min (bufferSize : ℤ) (max 0 limit)).toNat

/-- std::clamp(v, lo, hi): v < lo gives lo, hi < v gives hi, else v. -/
def stdClamp (v lo hi : ℚ) : ℚ := if v < lo then lo else if hi < v then hi else v

/-- std::numeric_limits of double, max(): the largest finite IEEE-754
binary64 value, (2^53 - 1) * 2^971, exact as a rational. -/
def doubleMax : ℚ := (2 ^ 53 - 1) * 2 ^ 971

/-- Track::ChannelType as consumed by Mixer::Process (LeftChannel,
RightChannel, MonoChannel). -/
inductive ChannelType where
  | mono : ChannelType
  | left : ChannelType
  | right : ChannelType
deriving DecidableEq, Repr

/-- Modelled from the spec: the per-track sample source interface (§4.1)
that Mix.cpp consumes.  sample gives the float sample at an index, readOk
tells whether a GetFloats call with the given start and count succeeds
(returns non-null), env is the gain envelope sampled by time, channelGain
the per-channel gain vector, nGroup the size of the channel group this
track leads (TrackList::Channels(leader).size()). -/
structure Track where
  rate : ℚ
  startT : ℚ
  endT : ℚ
  sample : ℤ → ℚ
  readOk : ℤ → ℕ → Bool
  env : ℚ → ℚ
  channel : ChannelType
  channelGain : ℕ → ℚ
  nGroup : ℕ

/-- A placeholder track used only as the default of list lookups that the
engine never performs out of range. -/
def trackDefault : Track :=
  ⟨44100, 0, 0, fun _ => 0, fun _ _ => true, fun _ => 1, ChannelType.mono, fun _ => 1, 1⟩

/-- Modelled from the spec: SampleTrackCache::GetFloats — read count
consecutive samples starting at a sample index; on failure returns null
(modelled as none; the mayThrow = true path throws instead and is outside
this model). -/
def getFloats (tr : Track) (start : ℤ) (len : ℕ) : Option (List ℚ) :=
  if tr.readOk start len then
    some ((List.range len).map fun i : ℕ => tr.sample (start + (i : ℤ)))
  else none

/-- Modelled from the spec: SampleTrack::GetEnvelopeValues fills out[i]
with the gain envelope evaluated at t0 + i / trackRate. -/
def envValues (tr : Track) (t0 : ℚ) (len : ℕ) : List ℚ :=
  (List.range len).map fun i : ℕ => tr.env (t0 + (i : ℚ) / tr.rate)

/-- Modelled from the spec: the BoundedEnvelope interface (AverageOfInverse
over an interval, plus its strictly positive range bounds). -/
structure BoundedEnvelope where
  avgInverse : ℚ → ℚ → ℚ
  rangeLower : ℚ
  rangeUpper : ℚ

/-- MixerOptions::Warp: either an envelope, or a (minSpeed, maxSpeed)
pair, plus the initial playback speed. -/
structure Warp where
  envelope : Option BoundedEnvelope
  minSpeed : ℚ
  maxSpeed : ℚ
  initialSpeed : ℚ

/-- MixerOptions::Warp::Warp(double min, double max, double initial):
normalizes the speed bounds so 0 <= minSpeed <= maxSpeed. -/
def Warp.ofBounds (mn mx initial : ℚ) : Warp :=
  { envelope := none
    minSpeed := max 0 (min mn mx)
    maxSpeed := max 0 (max mn mx)
    initialSpeed := initial }

/-- MixerOptions::Warp::Warp(const BoundedEnvelope *): speeds zero. -/
def Warp.ofEnvelope (e : BoundedEnvelope) (initial : ℚ) : Warp :=
  { envelope := some e, minSpeed := 0, maxSpeed := 0, initialSpeed := initial }

/-- MixerOptions::ResampleParameters: per-track resampling factor bounds
and the variable-rate flag. -/
structure ResampleParameters where
  variableRates : Bool
  minFactor : List ℚ
  maxFactor : List ℚ
deriving Repr

/-- The (minFactor, maxFactor) pair the ResampleParameters constructor
computes for one input track. -/
def resampleFactors (rate : ℚ) (w : Warp) (tr : Track) : ℚ × ℚ :=
  let factor := rate / tr.rate
  match w.envelope with
  | some e => (factor / e.rangeUpper, factor / e.rangeLower)
  | none =>
    if 0 < w.minSpeed ∧ 0 < w.maxSpeed then (factor / w.maxSpeed, factor / w.minSpeed)
    else (factor, factor)

/-- MixerOptions::ResampleParameters::ResampleParameters.  The C++ loop
assigns mbVariableRates once per track (always to the same value, which
depends only on the options); with no tracks it keeps its default false. -/
def resampleParameters (tracks : List Track) (rate : ℚ) (w : Warp) : ResampleParameters :=
  { variableRates :=
      (!tracks.isEmpty) &&
        (w.envelope.isSome || (decide (0 < w.minSpeed) && decide (0 < w.maxSpeed)))
    minFactor := tracks.map fun tr => (resampleFactors rate w tr).1
    maxFactor := tracks.map fun tr => (resampleFactors rate w tr).2 }

/-- MixerOptions::Downmix: boolean routing matrix with mNumTracks rows of
mMaxNumChannels entries each, of which the first mNumChannels columns are
active. -/
structure Downmix where
  numTracks : ℕ
  maxNumChannels : ℕ
  numChannels : ℕ
  map : List (List Bool)
deriving DecidableEq, Repr

/-- MixerOptions::Downmix::Downmix(numTracks, maxNumChannels).  The C++
allocates rows of mMaxNumChannels entries and writes (i == j) into the
first mNumChannels columns; the remaining columns are modelled as false
(their freshly allocated value). -/
def Downmix.make (numTracks maxNumChannels : ℕ) : Downmix :=
  let nc := min numTracks maxNumChannels
  { numTracks := numTracks
    maxNumChannels := maxNumChannels
    numChannels := nc
    map := (List.range numTracks).map fun i =>
      (List.range maxNumChannels).map fun j => decide (j < nc) && decide (i = j) }

/-- One of the two column-zeroing loops of Downmix::SetNumChannels: set
entries at column indices in [lo, hi) to false, scanning from index k. -/
def zeroColsFrom (lo hi : ℕ) : ℕ → List Bool → List Bool
  | _, [] => []
  | j, b :: r => (if lo ≤ j ∧ j < hi then false else b) :: zeroColsFrom lo hi (j + 1) r

/-- Set the entries of a row at column indices in [lo, hi) to false. -/
def zeroCols (row : List Bool) (lo hi : ℕ) : List Bool := zeroColsFrom lo hi 0 row

/-- MixerOptions::Downmix::SetNumChannels.  Returns the bool result paired
with the updated map.  The source runs two loops per row: one zeroing
columns [newNumChannels, mNumChannels) and one zeroing columns
[mNumChannels, newNumChannels). -/
def Downmix.setNumChannels (d : Downmix) (newNumChannels : ℕ) : Bool × Downmix :=
  if d.numChannels = newNumChannels then (true, d)
  else if d.maxNumChannels < newNumChannels then (false, d)
  else
    (true,
      { d with
        map := d.map.map fun row =>
          zeroCols (zeroCols row newNumChannels d.numChannels) d.numChannels newNumChannels
        numChannels := newNumChannels })

/-- The effective end time of mixing for one track: for backwards play
max(trackStart, T1), else min(trackEnd, T1), as computed identically at
the top of MixVariableRates and MixSameRate. -/
def mixTEnd (T0 T1 : ℚ) (tr : Track) : ℚ :=
  if T1 < T0 then max tr.startT T1 else min tr.endT T1

/-- The early-exit test of Mixer::MixSameRate: at or past the end of the
selection or track (backwards: t <= tEnd, forwards: t >= tEnd), where
t = pos / trackRate. -/
def pastTheEnd (T0 T1 : ℚ) (tr : Track) (pos : ℤ) : Bool :=
  let t : ℚ := (pos : ℚ) / tr.rate
  let tEnd := mixTEnd T0 T1 tr
  if T1 < T0 then decide (t ≤ tEnd) else decide (tEnd ≤ t)

/-- Mixer::MixSameRate.  Returns (slen, produced samples, new sample
position).  The produced list is what the C++ leaves in the per-channel
float scratch buffer: the read samples (silence when GetFloats failed),
multiplied elementwise by the envelope values, reversed for backwards
play.  Note: when slen = 0 the C++ computes a wrapped size_t in slen - 1;
the read length is 0 then, so nothing observable depends on it, and the
model uses truncated Nat subtraction at that spot. -/
def mixSameRate (T0 T1 mRate : ℚ) (tr : Track) (pos : ℤ) (maxOut : ℕ) :
    ℕ × List ℚ × ℤ :=
  let t : ℚ := (pos : ℚ) / tr.rate
  let backwards := T1 < T0
  let tEnd := mixTEnd T0 T1 tr
  if pastTheEnd T0 T1 tr pos then (0, [], pos)
  else
    let slen := limitSampleBufferSize maxOut
      (ratTrunc ((if backwards then t - tEnd else tEnd - t) * tr.rate + 1/2))
    if backwards then
      let results := getFloats tr (pos - ((slen - 1 : ℕ) : ℤ)) slen
      let buf := results.getD (List.replicate slen 0)
      let ev := envValues tr (t - ((slen : ℚ) - 1) / mRate) slen
      (slen, (List.zipWith (· * ·) buf ev).reverse, pos - (slen : ℤ))
    else
      let results := getFloats tr pos slen
      let buf := results.getD (List.replicate slen 0)
      let ev := envValues tr t slen
      (slen, List.zipWith (· * ·) buf ev, pos + (slen : ℤ))

/-- Modelled from the spec: the processing-slice length Pslice
(sProcessLen in Mix.h, which is not in this snapshot; the spec suggests
1024). -/
def sProcessLen : ℕ := 1024

/-- Modelled from the spec: the queue capacity Qmax (sQueueMaxLen in
Mix.h, which is not in this snapshot; Qmax >= 4 * Pslice). -/
def sQueueMaxLen : ℕ := 65536

/-- The memmove at the top of the refill step: move the live window
[qStart, qStart + qLen) of the queue buffer to offset 0; entries at
indices >= qLen keep their old values. -/
def compactQueue (q : ℕ → ℚ) (qStart qLen : ℕ) : ℕ → ℚ :=
  fun j => if j < qLen then q (qStart + j) else q j

/-- Write a list of values into the queue buffer starting at offset off. -/
def writeSeg (q : ℕ → ℚ) (off : ℕ) (vals : List ℚ) : ℕ → ℚ :=
  fun j => if off ≤ j ∧ j < off + vals.length then vals.getD (j - off) 0 else q j

/-- ReverseSamples on the segment [off, off + len) of the queue buffer. -/
def reverseSeg (q : ℕ → ℚ) (off len : ℕ) : ℕ → ℚ :=
  fun j => if off ≤ j ∧ j < off + len then q (off + len - 1 - (j - off)) else q j

/-- Per-input mutable state threaded through MixVariableRates: the sample
cursor, the queue buffer with its start offset and length, and the
resampler instance (of caller-chosen type RS). -/
structure VRState (RS : Type) where
  pos : ℤ
  q : ℕ → ℚ
  qStart : ℕ
  qLen : ℕ
  rs : RS

/-- The refill step at the top of the MixVariableRates loop: when the
queue holds less than a processing slice, compact it, then read up to
min(sQueueMaxLen - queueLen, remaining samples until endPos), zero-fill
on a null read, multiply by the envelope values aligned to the read
range, reverse the appended segment for backwards play, and advance the
sample cursor. -/
def mvrRefill (backwards : Bool) (endPos : ℤ) (tr : Track)
    (pos : ℤ) (q : ℕ → ℚ) (qStart qLen : ℕ) : ℤ × (ℕ → ℚ) × ℕ × ℕ :=
  if qLen < sProcessLen then
    let q1 := compactQueue q qStart qLen
    let getLen := limitSampleBufferSize (sQueueMaxLen - qLen)
      (if backwards then pos - endPos else endPos - pos)
    if 0 < getLen then
      let readStart : ℤ := if backwards then pos - ((getLen - 1 : ℕ) : ℤ) else pos
      let results := getFloats tr readStart getLen
      let vals := results.getD (List.replicate getLen 0)
      let ev := envValues tr ((readStart : ℚ) / tr.rate) getLen
      let q2 := writeSeg q1 qLen (List.zipWith (· * ·) vals ev)
      let q3 := if backwards then reverseSeg q2 qLen getLen else q2
      let pos2 := if backwards then pos - (getLen : ℤ) else pos + (getLen : ℤ)
      (pos2, q3, 0, qLen + getLen)
    else (pos, q1, 0, qLen)
  else (pos, q, qStart, qLen)

/-- One resampler implementation step, abstracting Resample::Process:
given the current resampler state, the factor, a view of the input
window, the window length, the end-of-stream flag and the output room,
return the new resampler state, the count of input samples consumed and
the list of produced output samples. -/
def RsImpl (RS : Type) : Type :=
  RS → ℚ → (ℕ → ℚ) → ℕ → Bool → ℕ → RS × ℕ × List ℚ

/-- The interface contract of Resample::Process stated in the spec:
it consumes at most the given input length and produces at most outMax
samples. -/
def RsContract {RS : Type} (rsP : RsImpl RS) : Prop :=
  ∀ rs factor win len last outMax,
    (rsP rs factor win len last outMax).2.1 ≤ len ∧
    (rsP rs factor win len last outMax).2.2.length ≤ outMax

/-- One iteration of the while loop of Mixer::MixVariableRates (after the
out < maxOut guard): refill the queue, size the slice, compute the warp
factor, run the resampler on the slice window with room maxOut - out,
consume the used input and advance the queue-start time.  Returns the new
per-input state, the produced samples, the new queue-start time and the
last flag. -/
def mvrStep {RS : Type} (rsP : RsImpl RS) (envO : Option BoundedEnvelope)
    (initialWarp tstep : ℚ) (backwards : Bool) (endPos : ℤ) (tr : Track)
    (maxOut out : ℕ) (st : VRState RS) (t : ℚ) :
    VRState RS × List ℚ × ℚ × Bool :=
  let rf := mvrRefill backwards endPos tr st.pos st.q st.qStart st.qLen
  let pos := rf.1
  let q := rf.2.1
  let qs := rf.2.2.1
  let ql := rf.2.2.2
  let last := ql < sProcessLen
  let thisProcessLen := if ql < sProcessLen then ql else sProcessLen
  let factor := initialWarp *
    (match envO with
     | some e =>
         if backwards then
           e.avgInverse (t - (thisProcessLen : ℚ) / tr.rate + tstep) (t + tstep)
         else e.avgInverse t (t + (thisProcessLen : ℚ) / tr.rate)
     | none => 1)
  let res := rsP st.rs factor (fun k => q (qs + k)) thisProcessLen last (maxOut - out)
  let used := res.2.1
  let st2 : VRState RS := ⟨pos, q, qs + used, ql - used, res.1⟩
  let t2 := t + ((used : ℚ) / tr.rate) * (if backwards then -1 else 1)
  (st2, res.2.2, t2, last)

/-- The while loop of Mixer::MixVariableRates, with an explicit fuel
bound on the number of iterations.  The C++ loop terminates only when the
output is full or the last slice was submitted; every property proved
about this model is an invariant of the loop body and therefore
independent of the fuel. -/
def mvrLoop {RS : Type} (rsP : RsImpl RS) (envO : Option BoundedEnvelope)
    (initialWarp tstep : ℚ) (backwards : Bool) (endPos : ℤ) (tr : Track)
    (maxOut : ℕ) :
    ℕ → VRState RS → ℕ → List ℚ → ℚ → ℕ × List ℚ × VRState RS
  | 0, st, out, buf, _ => (out, buf, st)
  | Nat.succ fuel, st, out, buf, t =>
    if maxOut ≤ out then (out, buf, st)
    else
      let s := mvrStep rsP envO initialWarp tstep backwards endPos tr maxOut out st t
      let out2 := out + s.2.1.length
      let buf2 := buf ++ s.2.1
      if s.2.2.2 then (out2, buf2, s.1)
      else mvrLoop rsP envO initialWarp tstep backwards endPos tr maxOut fuel s.1 out2 buf2 s.2.2.1

/-- Mixer::MixVariableRates.  Returns (out, produced samples, final
per-input state).  Initial t is the time of the start of the queue,
(pos +- queueLen) / trackRate. -/
def mixVariableRates {RS : Type} (rsP : RsImpl RS) (envO : Option BoundedEnvelope)
    (mRate speed T0 T1 : ℚ) (tr : Track) (st : VRState RS) (maxOut : ℕ) :
    ℕ × List ℚ × VRState RS :=
  let backwards := T1 < T0
  let tEnd := mixTEnd T0 T1 tr
  let endPos := timeToLongSamples tr.rate tEnd
  let initialWarp := mRate / speed / tr.rate
  let tstep := 1 / tr.rate
  let t : ℚ :=
    ((st.pos + (if backwards then (st.qLen : ℤ) else -(st.qLen : ℤ))) : ℚ) / tr.rate
  mvrLoop rsP envO initialWarp tstep backwards endPos tr maxOut
    (maxOut + sQueueMaxLen + 1) st 0 [] t

/-- The channel-flags computation in Mixer::Process: with a custom
routing row, copy its first numChannels entries (padding with false;
the C++ row always holds at least numChannels entries); otherwise derive
the flags from the channel designation. -/
def findChannelFlags (numChannels : ℕ) (mapRow : Option (List Bool))
    (channel : ChannelType) : List Bool :=
  match mapRow with
  | some row => row.take numChannels ++ List.replicate (numChannels - row.length) false
  | none =>
    match channel with
    | ChannelType.mono => List.replicate numChannels true
    | ChannelType.left => (List.range numChannels).map fun c => decide (c = 0)
    | ChannelType.right =>
        if 2 ≤ numChannels then (List.range numChannels).map fun c => decide (c = 1)
        else (List.range numChannels).map fun c => decide (c = 0)

/-- The inner loop of MixBuffers for one flagged channel: dest[j] +=
src[j] * gain for j below the produced length; entries beyond the
produced length are untouched. -/
def addScaled (gain : ℚ) (dest src : List ℚ) : List ℚ :=
  List.zipWith (fun d s => d + s * gain) dest src ++ dest.drop src.length

/-- MixBuffers: accumulate the produced samples of one input into every
output channel whose flag is set, scaled by that channel gain. -/
def mixBuffers (flags : List Bool) (gains : List ℚ) (src : List ℚ)
    (dests : List (List ℚ)) : List (List ℚ) :=
  List.zipWith (fun fg dest => if fg.1 then addScaled fg.2 dest src else dest)
    (flags.zip gains) dests

/-- The Mixer engine state.  RS is the resampler state type supplied by
the caller (the Resample class is an external collaborator); newResampler
models the Resample constructor (highQuality, minFactor, maxFactor), and
rsProcess models Resample::Process.  mFormat, mInterleaved and the final
CopySamples conversion into the byte output buffers are not modelled:
no claim concerns the dithered format conversion.  mayThrow is carried
but unused because the throwing read path is outside the model. -/
structure Mixer (RS : Type) where
  numChannels : ℕ
  bufferSize : ℕ
  rate : ℚ
  envelope : Option BoundedEnvelope
  params : ResampleParameters
  applyGains : Bool
  mixerSpec : Option Downmix
  highQuality : Bool
  mayThrow : Bool
  tracks : List Track
  samplePos : List ℤ
  T0 : ℚ
  T1 : ℚ
  time : ℚ
  queueBuf : List (ℕ → ℚ)
  queueStart : List ℕ
  queueLen : List ℕ
  temp : List (List ℚ)
  speed : ℚ
  resamplers : List RS
  newResampler : Bool → ℚ → ℚ → RS
  rsProcess : RsImpl RS

/-- Mixer::MakeResamplers: a fresh Resample instance per input track,
built from the stored resample parameters. -/
def makeResamplers {RS : Type} (m : Mixer RS) : Mixer RS :=
  { m with resamplers := (List.range m.tracks.length).map fun i =>
      m.newResampler m.highQuality (m.params.minFactor.getD i 0) (m.params.maxFactor.getD i 0) }

/-- The Mixer constructor.  The supplied routing map is kept only when
its channel count equals the output channel count and its track count
equals the number of inputs; sample cursors start at
TimeToLongSamples(startTime) per track; queues start empty; the
accumulators are allocated zeroed; resamplers are created last. -/
def mkMixer {RS : Type} (inputTracks : List Track) (mayThrow : Bool)
    (warpOptions : Warp) (startTime stopTime : ℚ)
    (numOutChannels outBufferSize : ℕ) (outRate : ℚ) (highQuality : Bool)
    (mixerSpec : Option Downmix) (applyTrackGains : Bool)
    (newResampler : Bool → ℚ → ℚ → RS) (rsProcess : RsImpl RS) : Mixer RS :=
  makeResamplers
    { numChannels := numOutChannels
      bufferSize := outBufferSize
      rate := outRate
      envelope := warpOptions.envelope
      params := resampleParameters inputTracks outRate warpOptions
      applyGains := applyTrackGains
      mixerSpec :=
        match mixerSpec with
        | some sp =>
            if sp.numChannels = numOutChannels ∧ sp.numTracks = inputTracks.length then
              some sp
            else none
        | none => none
      highQuality := highQuality
      mayThrow := mayThrow
      tracks := inputTracks
      samplePos := inputTracks.map fun tr => timeToLongSamples tr.rate startTime
      T0 := startTime
      T1 := stopTime
      time := startTime
      queueBuf := inputTracks.map fun _ => fun _ => 0
      queueStart := inputTracks.map fun _ => 0
      queueLen := inputTracks.map fun _ => 0
      temp := (List.range numOutChannels).map fun _ => List.replicate outBufferSize 0
      speed := warpOptions.initialSpeed
      resamplers := []
      newResampler := newResampler
      rsProcess := rsProcess }

/-- Mixer::MixGetCurrentTime. -/
def mixGetCurrentTime {RS : Type} (m : Mixer RS) : ℚ := m.time

/-- Mixer::Reposition: clamp the time into the direction-corrected
bounds, reset every sample cursor to TimeToLongSamples of the clamped
time and empty every queue; when skipping, rebuild every resampler. -/
def reposition {RS : Type} (m : Mixer RS) (t : ℚ) (bSkipping : Bool) : Mixer RS :=
  let backwards := m.T1 < m.T0
  let time := if backwards then stdClamp t m.T1 m.T0 else stdClamp t m.T0 m.T1
  let m2 := { m with
    time := time
    samplePos := m.tracks.map fun tr => timeToLongSamples tr.rate time
    queueStart := m.tracks.map fun _ => 0
    queueLen := m.tracks.map fun _ => 0 }
  if bSkipping then makeResamplers m2 else m2

/-- Mixer::SetTimesAndSpeed. -/
def setTimesAndSpeed {RS : Type} (m : Mixer RS) (t0 t1 speed : ℚ)
    (bSkipping : Bool) : Mixer RS :=
  reposition { m with T0 := t0, T1 := t1, speed := |speed| } t0 bSkipping

/-- Mixer::SetSpeedForKeyboardScrubbing: when the sign of the new speed
disagrees with the current play direction, widen the bounds in the new
direction (0 and the largest finite double) and reposition with
skipping; in every case store the absolute speed. -/
def setSpeedForKeyboardScrubbing {RS : Type} (m : Mixer RS) (speed startTime : ℚ) :
    Mixer RS :=
  let m2 :=
    if (0 < speed ∧ m.T1 < m.T0) ∨ (speed < 0 ∧ m.T0 < m.T1) then
      let m1 :=
        if 0 < speed ∧ m.T1 < m.T0 then { m with T0 := 0, T1 := doubleMax }
        else { m with T0 := doubleMax, T1 := 0 }
      reposition m1 startTime true
    else m
  { m2 with speed := |speed| }

/-- The per-track dispatch in Mixer::Process: MixVariableRates when
resampling is variable-rate or the track rate differs from the output
rate, else MixSameRate; returns the produced count, the produced
samples, and the engine with that input track state updated. -/
def mixTrackDispatch {RS : Type} [Inhabited RS] (m : Mixer RS) (ii maxToProcess : ℕ) :
    ℕ × List ℚ × Mixer RS :=
  let tr := m.tracks.getD ii trackDefault
  if m.params.variableRates = true ∨ tr.rate ≠ m.rate then
    let st : VRState RS :=
      ⟨m.samplePos.getD ii 0, m.queueBuf.getD ii (fun _ => 0),
        m.queueStart.getD ii 0, m.queueLen.getD ii 0, m.resamplers.getD ii default⟩
    let r := mixVariableRates m.rsProcess m.envelope m.rate m.speed m.T0 m.T1 tr st maxToProcess
    let st2 := r.2.2
    (r.1, r.2.1,
      { m with
        samplePos := m.samplePos.set ii st2.pos
        queueBuf := m.queueBuf.set ii st2.q
        queueStart := m.queueStart.set ii st2.qStart
        queueLen := m.queueLen.set ii st2.qLen
        resamplers := m.resamplers.set ii st2.rs })
  else
    let r := mixSameRate m.T0 m.T1 m.rate tr (m.samplePos.getD ii 0) maxToProcess
    (r.1, r.2.1, { m with samplePos := m.samplePos.set ii r.2.2 })

/-- One step of the first per-group loop of Mixer::Process: mix channel
j of the group starting at track index i, record the (count, samples)
result, and update the running maxOut and candidate new time from the
advanced sample cursor. -/
def mixGroupStep {RS : Type} [Inhabited RS] (i maxToProcess : ℕ) (backwards : Bool)
    (acc : Mixer RS × List (ℕ × List ℚ) × ℕ × ℚ) (j : ℕ) :
    Mixer RS × List (ℕ × List ℚ) × ℕ × ℚ :=
  let ii := i + j
  let r := mixTrackDispatch acc.1 ii maxToProcess
  let m2 := r.2.2
  let tr := m2.tracks.getD ii trackDefault
  let newT : ℚ := ((m2.samplePos.getD ii 0 : ℤ) : ℚ) / tr.rate
  (m2, acc.2.1 ++ [(r.1, r.2.1)],
    max acc.2.2.1 r.1,
    if backwards then min acc.2.2.2 newT else max acc.2.2.2 newT)

/-- The first per-group loop of Mixer::Process: mix each of the first
min(nGroup, 2) channels of the group starting at track index i, collect
the per-channel (count, samples) results, and update the running maxOut
and candidate new time from the advanced sample cursors. -/
def mixGroupTracks {RS : Type} [Inhabited RS] (i maxToProcess limit : ℕ)
    (backwards : Bool) (m : Mixer RS) (maxOut : ℕ) (newTime : ℚ) :
    Mixer RS × List (ℕ × List ℚ) × ℕ × ℚ :=
  (List.range limit).foldl (mixGroupStep i maxToProcess backwards) (m, [], maxOut, newTime)

/-- One step of the second per-group loop of Mixer::Process: compute the
gains and channel flags of channel j of the group and accumulate its
produced samples into the channel accumulators. -/
def accumStep {RS : Type} (i : ℕ) (mixedBufs : List (ℕ × List ℚ))
    (mm : Mixer RS) (j : ℕ) : Mixer RS :=
  let ii := i + j
  let tr := mm.tracks.getD ii trackDefault
  let gains :=
    if mm.applyGains then (List.range mm.numChannels).map tr.channelGain
    else List.replicate mm.numChannels 1
  let row := mm.mixerSpec.map fun sp => sp.map.getD ii []
  let flags := findChannelFlags mm.numChannels row tr.channel
  let src := (mixedBufs.getD j (0, [])).2
  { mm with temp := mixBuffers flags gains src mm.temp }

/-- The second per-group loop of Mixer::Process: for each mixed channel
of the group, compute the gains and channel flags and accumulate the
produced samples into the channel accumulators. -/
def accumGroup {RS : Type} (m : Mixer RS) (i limit : ℕ)
    (mixedBufs : List (ℕ × List ℚ)) : Mixer RS :=
  (List.range limit).foldl (accumStep i mixedBufs) m

/-- The outer track loop of Mixer::Process, advancing by the channel
group size of each leader.  Fuel bounds the number of groups; since
every group has size at least one, fuel = number of tracks never
truncates (a group of size 0 would not terminate in the C++ and is cut
off here at the point of the corresponding assertion). -/
def processGroups {RS : Type} [Inhabited RS] (maxToProcess : ℕ) (backwards : Bool) :
    ℕ → ℕ → Mixer RS → ℕ → ℚ → Mixer RS × ℕ × ℚ
  | 0, _, m, maxOut, newTime => (m, maxOut, newTime)
  | Nat.succ fuel, i, m, maxOut, newTime =>
    if i < m.tracks.length then
      let n := (m.tracks.getD i trackDefault).nGroup
      if n = 0 ∨ m.tracks.length < i + n then (m, maxOut, newTime)
      else
        let limit := min n 2
        let r := mixGroupTracks i maxToProcess limit backwards m maxOut newTime
        let m2 := accumGroup r.1 i limit r.2.1
        processGroups maxToProcess backwards fuel (i + n) m2 r.2.2.1 r.2.2.2
    else (m, maxOut, newTime)

/-- Mixer::Process: clear the accumulators, mix every channel group,
then clamp the candidate new time between the current time and T1 in
the play direction.  Returns the produced count (the max over inputs)
and the updated engine.  The final dithered conversion of the
accumulators into the output byte buffers is not modelled. -/
def process {RS : Type} [Inhabited RS] (m : Mixer RS) (maxToProcess : ℕ) :
    ℕ × Mixer RS :=
  let backwards := m.T1 < m.T0
  let m1 := { m with
    temp := (List.range m.numChannels).map fun _ => List.replicate m.bufferSize 0 }
  let r := processGroups maxToProcess backwards m1.tracks.length 0 m1 0 m1.time
  let m2 := r.1
  let newTime := r.2.2
  let time2 :=
    if backwards then stdClamp newTime m2.T1 m2.time
    else stdClamp newTime m2.time m2.T1
  (r.2.1, { m2 with time := time2 })

/-- m2 agrees with m on every engine field except possibly the per-input
mutable state (sample cursors, queues, resamplers) and the accumulators:
the shape every per-track mixing step leaves the engine in. -/
def EngineShape {RS : Type} (m m2 : Mixer RS) : Prop :=
  ∃ sp qb qs ql tp rs,
    m2 = { m with
      samplePos := sp
      queueBuf := qb
      queueStart := qs
      queueLen := ql
      temp := tp
      resamplers := rs }

/-- m2 agrees with m on every field except possibly the accumulators. -/
def TempShape {RS : Type} (m m2 : Mixer RS) : Prop :=
  ∃ tp, m2 = { m with temp := tp }

/-- The run-time invariant of the engine clock: mTime lies in the closed
interval spanned by the time bounds. -/
def timeInvariant {RS : Type} (m : Mixer RS) : Prop :=
  min m.T0 m.T1 ≤ m.time ∧ m.time ≤ max m.T0 m.T1

/-- One routing-map entry, read as Mixer::Process reads it. -/
def mapEntry (d : Downmix) (i j : ℕ) : Bool := (d.map.getD i []).getD j false

/-- A trivial resampler implementation: consumes and produces nothing.
Used to instantiate theorems at concrete inputs. -/
def rsTrivial : RsImpl Unit := fun _ _ _ _ _ _ => ((), 0, [])

/-- A concrete silent mono track at rate 1 used to instantiate theorems. -/
def trackA : Track :=
  { rate := 1, startT := 0, endT := 10, sample := fun _ => 0, readOk := fun _ _ => true,
    env := fun _ => 1, channel := ChannelType.mono, channelGain := fun _ => 1, nGroup := 1 }

/-- A concrete track whose every read fails. -/
def trackFail : Track :=
  { trackA with readOk := fun _ _ => false }

/-- An empty per-input variable-rate state over the trivial resampler. -/
def vrStateA : VRState Unit := ⟨0, fun _ => 0, 0, 0, ()⟩

/-- A concrete engine: one silent track, play interval [0, 2], one
output channel, buffer size 4, output rate 1, constant rate. -/
def mixerA : Mixer Unit :=
  mkMixer [trackA] false (Warp.ofBounds 0 0 1) 0 2 1 4 1 false none false
    (fun _ _ _ => ()) rsTrivial

/-- A concrete engine whose start time 3/5 rounds up to sample cursor 1. -/
def mixerC5 : Mixer Unit :=
  mkMixer [trackA] false (Warp.ofBounds 0 0 1) (3/5) 2 1 4 1 false none false
    (fun _ _ _ => ()) rsTrivial

/-- A concrete backwards engine (T1 < T0) for the scrubbing theorems. -/
def mixerC6 : Mixer Unit :=
  mkMixer [trackA] false (Warp.ofBounds 0 0 1) 1 0 1 4 1 false none false
    (fun _ _ _ => ()) rsTrivial

/-- A concrete exhausted engine: the play interval [3, 3] is empty. -/
def mixerEnd : Mixer Unit :=
  mkMixer [trackA] false (Warp.ofBounds 0 0 1) 3 3 1 4 1 false none false
    (fun _ _ _ => ()) rsTrivial

/-- A concrete routing map with a stale true entry in an inactive
column: 1 track, 2 allocatable channels, 1 active channel. -/
def d7c : Downmix :=
  { numTracks := 1, maxNumChannels := 2, numChannels := 1, map := [[true, true]] }

attribute [local semireducible] Rat.add Rat.mul Rat.sub Rat.inv

/-- Setting a list entry to the value it already holds changes nothing. -/
theorem list_set_getD {α : Type _} (l : List α) (i : ℕ) (d : α) :
    l.set i (l.getD i d) = l := by
  induction l generalizing i with
  | nil => rfl
  | cons a r ih =>
    cases i with
    | zero => rfl
    | succ j => exact congrArg (a :: ·) (ih j)

/-- Reading a mapped list at an in-range index. -/
theorem getD_map_of_lt {α β : Type _} (l : List α) (f : α → β) (i : ℕ)
    (hi : i < l.length) (d : β) (d2 : α) :
    (l.map f).getD i d = f (l.getD i d2) := by
  rw [List.getD_eq_getElem (l.map f) d (by simpa using hi),
    List.getD_eq_getElem l d2 hi, List.getElem_map]

/-- limitSampleBufferSize never exceeds the buffer size. -/
theorem limitSampleBufferSize_le (b : ℕ) (l : ℤ) : limitSampleBufferSize b l ≤ b := by
  unfold limitSampleBufferSize
  have h : min (b : ℤ) (max 0 l) ≤ (b : ℤ) := min_le_left _ _
  exact Int.toNat_le.mpr h

/-- stdClamp stays at or above the lower bound when the bounds are ordered. -/
theorem stdClamp_ge (v lo hi : ℚ) (h : lo ≤ hi) : lo ≤ stdClamp v lo hi := by
  unfold stdClamp
  split_ifs with h1 h2
  · exact le_refl lo
  · exact h
  · exact le_of_not_lt h1

/-- stdClamp stays at or below the upper bound when the bounds are ordered. -/
theorem stdClamp_le (v lo hi : ℚ) (h : lo ≤ hi) : stdClamp v lo hi ≤ hi := by
  unfold stdClamp
  split_ifs with h1 h2
  · exact h
  · exact le_refl hi
  · exact le_of_not_lt h2

/-- Multiplying a zero-filled buffer elementwise leaves zeros. -/
theorem zipWith_mul_replicate_zero (n : ℕ) (ev : List ℚ) :
    List.zipWith (· * ·) (List.replicate n 0) ev = List.replicate (min n ev.length) 0 := by
  induction ev generalizing n with
  | nil => simp
  | cons e r ih =>
    cases n with
    | zero => simp
    | succ k =>
      simp only [List.replicate_succ, List.zipWith_cons_cons, zero_mul, List.length_cons]
      rw [ih]
      rw [Nat.succ_min_succ, List.replicate_succ]

/-- Accumulating a zero-filled source into a channel buffer is the identity. -/
theorem addScaled_replicate_zero (g : ℚ) (dest : List ℚ) (k : ℕ) :
    addScaled g dest (List.replicate k 0) = dest := by
  unfold addScaled
  induction dest generalizing k with
  | nil => simp
  | cons d r ih =>
    cases k with
    | zero => simp
    | succ j =>
      simp only [List.replicate_succ, List.zipWith_cons_cons, zero_mul, add_zero,
        List.length_cons, List.length_replicate, List.cons_append, List.drop_succ_cons]
      have := ih j
      simp only [List.length_replicate] at this
      rw [this]

/-- MixBuffers with a zero-filled source leaves every accumulator
unchanged, provided the flag and gain vectors cover every channel. -/
theorem mixBuffers_replicate_zero (flags : List Bool) (gains : List ℚ) (k : ℕ)
    (dests : List (List ℚ)) (hf : dests.length ≤ flags.length)
    (hg : dests.length ≤ gains.length) :
    mixBuffers flags gains (List.replicate k 0) dests = dests := by
  unfold mixBuffers
  induction dests generalizing flags gains with
  | nil => simp
  | cons d r ih =>
    cases flags with
    | nil => simp at hf
    | cons f fr =>
      cases gains with
      | nil => simp at hg
      | cons g gr =>
        simp only [List.zip_cons_cons, List.zipWith_cons_cons]
        rw [addScaled_replicate_zero]
        have h1 : r.length ≤ fr.length := by simpa using hf
        have h2 : r.length ≤ gr.length := by simpa using hg
        have := ih fr gr h1 h2
        split_ifs <;> exact congrArg (d :: ·) this

/-- With a zero-sized buffer nothing can be requested. -/
theorem limitSampleBufferSize_zero (l : ℤ) : limitSampleBufferSize 0 l = 0 :=
  Nat.le_zero.mp (limitSampleBufferSize_le 0 l)

/-- The envelope-value buffer has the requested length. -/
theorem envValues_length (tr : Track) (t0 : ℚ) (n : ℕ) :
    (envValues tr t0 n).length = n := by
  unfold envValues
  rw [List.length_map, List.length_range]

/-- MixSameRate never produces more than maxOut samples. -/
theorem mixSameRate_le (T0 T1 mRate : ℚ) (tr : Track) (pos : ℤ) (maxOut : ℕ) :
    (mixSameRate T0 T1 mRate tr pos maxOut).1 ≤ maxOut := by
  unfold mixSameRate
  dsimp only
  split
  · exact Nat.zero_le _
  · split <;> exact limitSampleBufferSize_le _ _

/-- At or past the effective end, MixSameRate returns 0 and changes
nothing. -/
theorem mixSameRate_pastTheEnd (T0 T1 mRate : ℚ) (tr : Track) (pos : ℤ) (maxOut : ℕ)
    (h : pastTheEnd T0 T1 tr pos = true) :
    mixSameRate T0 T1 mRate tr pos maxOut = (0, [], pos) := by
  simp [mixSameRate, h]

/-- MixSameRate with maxOut = 0 returns 0 samples and leaves the cursor
in place. -/
theorem mixSameRate_zero (T0 T1 mRate : ℚ) (tr : Track) (pos : ℤ) :
    mixSameRate T0 T1 mRate tr pos 0 = (0, [], pos) := by
  unfold mixSameRate
  dsimp only
  split
  · rfl
  · split <;> simp [limitSampleBufferSize_zero, envValues]

/-- When every read fails, the samples MixSameRate produces are all
exactly zero, whatever the envelope values are. -/
theorem mixSameRate_nullfill (T0 T1 mRate : ℚ) (tr : Track) (pos : ℤ) (maxOut : ℕ)
    (hfail : ∀ s l, tr.readOk s l = false) :
    (mixSameRate T0 T1 mRate tr pos maxOut).2.1 =
      List.replicate (mixSameRate T0 T1 mRate tr pos maxOut).1 0 := by
  unfold mixSameRate
  dsimp only
  split
  · rfl
  · split
    · simp only [getFloats, hfail, Bool.false_eq_true, if_false, Option.getD_none]
      rw [zipWith_mul_replicate_zero, envValues_length, min_self, List.reverse_replicate]
    · simp only [getFloats, hfail, Bool.false_eq_true, if_false, Option.getD_none]
      rw [zipWith_mul_replicate_zero, envValues_length, min_self]

/-- One variable-rate iteration produces at most the remaining room. -/
theorem mvrStep_produced_le {RS : Type} (rsP : RsImpl RS) (envO : Option BoundedEnvelope)
    (initialWarp tstep : ℚ) (backwards : Bool) (endPos : ℤ) (tr : Track)
    (maxOut out : ℕ) (st : VRState RS) (t : ℚ) (hc : RsContract rsP) :
    (mvrStep rsP envO initialWarp tstep backwards endPos tr maxOut out st t).2.1.length
      ≤ maxOut - out := by
  unfold mvrStep
  exact (hc _ _ _ _ _ _).2

/-- A full output stops the variable-rate loop immediately. -/
theorem mvrLoop_stop {RS : Type} (rsP : RsImpl RS) (envO : Option BoundedEnvelope)
    (initialWarp tstep : ℚ) (backwards : Bool) (endPos : ℤ) (tr : Track)
    (maxOut fuel : ℕ) (st : VRState RS) (out : ℕ) (buf : List ℚ) (t : ℚ)
    (h : maxOut ≤ out) :
    mvrLoop rsP envO initialWarp tstep backwards endPos tr maxOut fuel st out buf t
      = (out, buf, st) := by
  cases fuel with
  | zero => rfl
  | succ n => simp [mvrLoop, h]

/-- Loop invariant: the produced count never exceeds maxOut. -/
theorem mvrLoop_le {RS : Type} (rsP : RsImpl RS) (envO : Option BoundedEnvelope)
    (initialWarp tstep : ℚ) (backwards : Bool) (endPos : ℤ) (tr : Track)
    (maxOut : ℕ) (hc : RsContract rsP) (fuel : ℕ) (st : VRState RS) (out : ℕ)
    (buf : List ℚ) (t : ℚ) (h : out ≤ maxOut) :
    (mvrLoop rsP envO initialWarp tstep backwards endPos tr maxOut fuel st out buf t).1
      ≤ maxOut := by
  induction fuel generalizing st out buf t with
  | zero => simpa [mvrLoop] using h
  | succ n ih =>
    rw [mvrLoop]
    by_cases hstop : maxOut ≤ out
    · simpa [hstop] using h
    · simp only [if_neg hstop]
      have hlen := mvrStep_produced_le rsP envO initialWarp tstep backwards endPos tr
        maxOut out st t hc
      have hout2 : out +
          (mvrStep rsP envO initialWarp tstep backwards endPos tr maxOut out st t).2.1.length
          ≤ maxOut := by omega
      split
      · simpa using hout2
      · exact ih _ _ _ _ hout2

/-- MixVariableRates never produces more than maxOut samples. -/
theorem mixVariableRates_le {RS : Type} (rsP : RsImpl RS) (envO : Option BoundedEnvelope)
    (mRate speed T0 T1 : ℚ) (tr : Track) (st : VRState RS) (maxOut : ℕ)
    (hc : RsContract rsP) :
    (mixVariableRates rsP envO mRate speed T0 T1 tr st maxOut).1 ≤ maxOut := by
  unfold mixVariableRates
  exact mvrLoop_le _ _ _ _ _ _ _ _ hc _ _ _ _ _ (Nat.zero_le _)

/-- MixVariableRates with maxOut = 0 returns immediately with nothing
produced and the per-input state untouched. -/
theorem mixVariableRates_zero {RS : Type} (rsP : RsImpl RS) (envO : Option BoundedEnvelope)
    (mRate speed T0 T1 : ℚ) (tr : Track) (st : VRState RS) :
    mixVariableRates rsP envO mRate speed T0 T1 tr st 0 = (0, [], st) := by
  unfold mixVariableRates
  exact mvrLoop_stop _ _ _ _ _ _ _ _ _ _ _ _ _ (Nat.le_refl 0)

/-- Folding preserves any invariant its step preserves on list members. -/
theorem foldl_mem_inv {α β : Type _} (f : α → β → α) (P : α → Prop) :
    ∀ (l : List β), (∀ a b, b ∈ l → P a → P (f a b)) → ∀ a, P a → P (l.foldl f a)
  | [], _, _, ha => ha
  | b :: r, h, a, ha =>
    foldl_mem_inv f P r (fun a2 c hc => h a2 c (List.mem_cons_of_mem b hc)) (f a b)
      (h a b (List.mem_cons_self b r) ha)

/-- EngineShape is reflexive. -/
theorem engineShape_refl {RS : Type} (m : Mixer RS) : EngineShape m m :=
  ⟨m.samplePos, m.queueBuf, m.queueStart, m.queueLen, m.temp, m.resamplers, rfl⟩

/-- EngineShape composes. -/
theorem engineShape_trans {RS : Type} {m m2 m3 : Mixer RS}
    (h1 : EngineShape m m2) (h2 : EngineShape m2 m3) : EngineShape m m3 := by
  obtain ⟨a1, b1, c1, d1, e1, f1, rfl⟩ := h1
  obtain ⟨a2, b2, c2, d2, e2, f2, rfl⟩ := h2
  exact ⟨a2, b2, c2, d2, e2, f2, rfl⟩

/-- A TempShape change is in particular an EngineShape change. -/
theorem tempShape_engineShape {RS : Type} {m m2 : Mixer RS}
    (h : TempShape m m2) : EngineShape m m2 := by
  obtain ⟨tp, rfl⟩ := h
  exact ⟨m.samplePos, m.queueBuf, m.queueStart, m.queueLen, tp, m.resamplers, rfl⟩

/-- TempShape is reflexive. -/
theorem tempShape_refl {RS : Type} (m : Mixer RS) : TempShape m m := ⟨m.temp, rfl⟩

/-- TempShape composes. -/
theorem tempShape_trans {RS : Type} {m m2 m3 : Mixer RS}
    (h1 : TempShape m m2) (h2 : TempShape m2 m3) : TempShape m m3 := by
  obtain ⟨t1, rfl⟩ := h1
  obtain ⟨t2, rfl⟩ := h2
  exact ⟨t2, rfl⟩

/-- The per-track dispatch touches only per-input state. -/
theorem mixTrackDispatch_shape {RS : Type} [Inhabited RS] (m : Mixer RS) (ii k : ℕ) :
    EngineShape m (mixTrackDispatch m ii k).2.2 := by
  unfold mixTrackDispatch
  dsimp only
  split
  · exact ⟨_, _, _, _, m.temp, _, rfl⟩
  · exact ⟨_, m.queueBuf, m.queueStart, m.queueLen, m.temp, m.resamplers, rfl⟩

/-- The per-track dispatch produces at most maxToProcess samples. -/
theorem mixTrackDispatch_le {RS : Type} [Inhabited RS] (m : Mixer RS) (ii k : ℕ)
    (hc : RsContract m.rsProcess) : (mixTrackDispatch m ii k).1 ≤ k := by
  unfold mixTrackDispatch
  dsimp only
  split
  · exact mixVariableRates_le _ _ _ _ _ _ _ _ _ hc
  · exact mixSameRate_le _ _ _ _ _ _

/-- The per-track dispatch with maxToProcess = 0 returns 0 and leaves the
whole engine unchanged. -/
theorem mixTrackDispatch_zero {RS : Type} [Inhabited RS] (m : Mixer RS) (ii : ℕ) :
    mixTrackDispatch m ii 0 = (0, [], m) := by
  unfold mixTrackDispatch
  dsimp only
  split
  · rw [mixVariableRates_zero]
    simp only [list_set_getD]
  · rw [mixSameRate_zero]
    simp only [list_set_getD]

/-- The accumulation step touches only the accumulators. -/
theorem accumStep_shape {RS : Type} (i : ℕ) (bufs : List (ℕ × List ℚ))
    (mm : Mixer RS) (j : ℕ) : TempShape mm (accumStep i bufs mm j) :=
  ⟨_, rfl⟩

/-- The accumulation loop touches only the accumulators. -/
theorem accumGroup_shape {RS : Type} (m : Mixer RS) (i limit : ℕ)
    (bufs : List (ℕ × List ℚ)) : TempShape m (accumGroup m i limit bufs) := by
  unfold accumGroup
  exact foldl_mem_inv _ (TempShape m) _
    (fun a b _ ha => tempShape_trans ha (accumStep_shape i bufs a b)) m (tempShape_refl m)

/-- The group mixing loop touches only per-input state. -/
theorem mixGroupTracks_shape {RS : Type} [Inhabited RS] (i maxToProcess limit : ℕ)
    (backwards : Bool) (m : Mixer RS) (maxOut : ℕ) (newTime : ℚ) :
    EngineShape m (mixGroupTracks i maxToProcess limit backwards m maxOut newTime).1 := by
  unfold mixGroupTracks
  have := foldl_mem_inv (mixGroupStep i maxToProcess backwards)
    (fun acc => EngineShape m acc.1) (List.range limit)
    (fun acc j _ ha => by
      unfold mixGroupStep
      exact engineShape_trans ha (mixTrackDispatch_shape acc.1 (i + j) maxToProcess))
    (m, [], maxOut, newTime) (engineShape_refl m)
  exact this

/-- The group mixing loop keeps the running maxOut at or below
maxToProcess, as long as it starts there and the resampler obeys its
contract. -/
theorem mixGroupTracks_le {RS : Type} [Inhabited RS] (i maxToProcess limit : ℕ)
    (backwards : Bool) (m : Mixer RS) (maxOut : ℕ) (newTime : ℚ)
    (hc : RsContract m.rsProcess) (hm : maxOut ≤ maxToProcess) :
    (mixGroupTracks i maxToProcess limit backwards m maxOut newTime).2.2.1
      ≤ maxToProcess := by
  unfold mixGroupTracks
  have := foldl_mem_inv (mixGroupStep i maxToProcess backwards)
    (fun acc => EngineShape m acc.1 ∧ acc.2.2.1 ≤ maxToProcess) (List.range limit)
    (fun acc j _ ha => by
      unfold mixGroupStep
      constructor
      · exact engineShape_trans ha.1 (mixTrackDispatch_shape acc.1 (i + j) maxToProcess)
      · dsimp only
        refine max_le ha.2 ?_
        obtain ⟨sp, qb, qs, ql, tp, rs, hE⟩ := ha.1
        refine mixTrackDispatch_le acc.1 (i + j) maxToProcess ?_
        rw [hE]
        exact hc)
    (m, [], maxOut, newTime) ⟨engineShape_refl m, hm⟩
  exact this.2

/-- The group mixing loop with maxToProcess = 0 leaves the engine exactly
unchanged and keeps the running maxOut. -/
theorem mixGroupTracks_zero {RS : Type} [Inhabited RS] (i limit : ℕ)
    (backwards : Bool) (m : Mixer RS) (maxOut : ℕ) (newTime : ℚ) :
    (mixGroupTracks i 0 limit backwards m maxOut newTime).1 = m ∧
    (mixGroupTracks i 0 limit backwards m maxOut newTime).2.2.1 = maxOut := by
  unfold mixGroupTracks
  have := foldl_mem_inv (mixGroupStep i 0 backwards)
    (fun acc => acc.1 = m ∧ acc.2.2.1 = maxOut) (List.range limit)
    (fun acc j _ ha => by
      unfold mixGroupStep
      dsimp only
      rw [mixTrackDispatch_zero]
      exact ⟨ha.1, by simpa using ha.2⟩)
    (m, [], maxOut, newTime) ⟨rfl, rfl⟩
  exact this

/-- The outer track loop of Process touches only per-input state and
accumulators. -/
theorem processGroups_shape {RS : Type} [Inhabited RS] (maxToProcess : ℕ)
    (backwards : Bool) (fuel : ℕ) :
    ∀ (i : ℕ) (m : Mixer RS) (maxOut : ℕ) (newTime : ℚ),
      EngineShape m (processGroups maxToProcess backwards fuel i m maxOut newTime).1 := by
  induction fuel with
  | zero => intro i m maxOut newTime; exact engineShape_refl m
  | succ n ih =>
    intro i m maxOut newTime
    rw [processGroups]
    dsimp only
    split
    · split
      · exact engineShape_refl m
      · refine engineShape_trans ?_ (ih _ _ _ _)
        exact engineShape_trans (mixGroupTracks_shape _ _ _ _ _ _ _)
          (tempShape_engineShape (accumGroup_shape _ _ _ _))
    · exact engineShape_refl m

/-- One whole group round (mix then accumulate) touches only per-input
state and accumulators. -/
theorem groupRound_shape {RS : Type} [Inhabited RS] (i maxToProcess limit : ℕ)
    (backwards : Bool) (m : Mixer RS) (maxOut : ℕ) (newTime : ℚ) :
    EngineShape m
      (accumGroup (mixGroupTracks i maxToProcess limit backwards m maxOut newTime).1 i
        limit (mixGroupTracks i maxToProcess limit backwards m maxOut newTime).2.1) :=
  engineShape_trans (mixGroupTracks_shape i maxToProcess limit backwards m maxOut newTime)
    (tempShape_engineShape (accumGroup_shape _ i limit _))

/-- The outer track loop of Process keeps maxOut at or below
maxToProcess. -/
theorem processGroups_le {RS : Type} [Inhabited RS] (maxToProcess : ℕ)
    (backwards : Bool) (fuel : ℕ) :
    ∀ (i : ℕ) (m : Mixer RS) (maxOut : ℕ) (newTime : ℚ),
      RsContract m.rsProcess → maxOut ≤ maxToProcess →
      (processGroups maxToProcess backwards fuel i m maxOut newTime).2.1
        ≤ maxToProcess := by
  induction fuel with
  | zero => intro i m maxOut newTime _ hm; exact hm
  | succ n ih =>
    intro i m maxOut newTime hc hm
    rw [processGroups]
    dsimp only
    split
    · split
      · exact hm
      · apply ih
        · obtain ⟨sp, qb, qs, ql, tp, rs, hE⟩ := groupRound_shape i maxToProcess
            (min (m.tracks.getD i trackDefault).nGroup 2) backwards m maxOut newTime
          rw [hE]
          exact hc
        · exact mixGroupTracks_le i maxToProcess _ backwards m maxOut newTime hc hm
    · exact hm

/-- The outer track loop of Process with maxToProcess = 0 changes only
the accumulators and keeps the running maxOut. -/
theorem processGroups_zero {RS : Type} [Inhabited RS] (backwards : Bool) (fuel : ℕ) :
    ∀ (i : ℕ) (m : Mixer RS) (maxOut : ℕ) (newTime : ℚ),
      TempShape m (processGroups 0 backwards fuel i m maxOut newTime).1 ∧
      (processGroups 0 backwards fuel i m maxOut newTime).2.1 = maxOut := by
  induction fuel with
  | zero => intro i m maxOut newTime; exact ⟨tempShape_refl m, rfl⟩
  | succ n ih =>
    intro i m maxOut newTime
    rw [processGroups]
    dsimp only
    split
    · split
      · exact ⟨tempShape_refl m, rfl⟩
      · have hz := mixGroupTracks_zero i (min (m.tracks.getD i trackDefault).nGroup 2)
          backwards m maxOut newTime
        rw [hz.1]
        have hrec := ih (i + (m.tracks.getD i trackDefault).nGroup)
          (accumGroup m i (min (m.tracks.getD i trackDefault).nGroup 2)
            (mixGroupTracks i 0 (min (m.tracks.getD i trackDefault).nGroup 2) backwards m
              maxOut newTime).2.1)
          (mixGroupTracks i 0 (min (m.tracks.getD i trackDefault).nGroup 2) backwards m
            maxOut newTime).2.2.1
          (mixGroupTracks i 0 (min (m.tracks.getD i trackDefault).nGroup 2) backwards m
            maxOut newTime).2.2.2
        refine ⟨?_, ?_⟩
        · exact tempShape_trans (accumGroup_shape m i _ _) hrec.1
        · rw [hrec.2, hz.2]
    · exact ⟨tempShape_refl m, rfl⟩

/-- Process returns at most maxToProcess when the resampler obeys its
contract. -/
theorem process_le {RS : Type} [Inhabited RS] (m : Mixer RS) (k : ℕ)
    (hc : RsContract m.rsProcess) : (process m k).1 ≤ k := by
  unfold process
  dsimp only
  apply processGroups_le
  · exact hc
  · exact Nat.zero_le k

/-- Process with maxToProcess = 0 returns 0 and leaves every sample
cursor, every queue and every resampler untouched. -/
theorem process_zero_state {RS : Type} [Inhabited RS] (m : Mixer RS) :
    (process m 0).1 = 0 ∧
    (process m 0).2.samplePos = m.samplePos ∧
    (process m 0).2.queueBuf = m.queueBuf ∧
    (process m 0).2.queueStart = m.queueStart ∧
    (process m 0).2.queueLen = m.queueLen ∧
    (process m 0).2.resamplers = m.resamplers := by
  unfold process
  dsimp only
  obtain ⟨⟨tp, hT⟩, h0⟩ := processGroups_zero (decide (m.T1 < m.T0))
    m.tracks.length 0
    { m with temp := (List.range m.numChannels).map fun _ => List.replicate m.bufferSize 0 }
    0 m.time
  rw [h0, hT]
  exact ⟨rfl, rfl, rfl, rfl, rfl, rfl⟩

/-- Process keeps the time bounds and updates the current time by
clamping some candidate between the old time and T1 in the play
direction. -/
theorem process_time_shape {RS : Type} [Inhabited RS] (m : Mixer RS) (k : ℕ) :
    (process m k).2.T0 = m.T0 ∧ (process m k).2.T1 = m.T1 ∧
    ∃ nt, (process m k).2.time =
      if m.T1 < m.T0 then stdClamp nt m.T1 m.time else stdClamp nt m.time m.T1 := by
  unfold process
  dsimp only
  obtain ⟨sp, qb, qs, ql, tp, rs, hE⟩ := processGroups_shape k
    (decide (m.T1 < m.T0)) m.tracks.length 0
    { m with temp := (List.range m.numChannels).map fun _ => List.replicate m.bufferSize 0 }
    0 m.time
  rw [hE]
  exact ⟨rfl, rfl, _, rfl⟩

/-- For a constant-rate input with track rate equal to the output rate
that is at or past its effective end, the dispatch returns 0 and leaves
the whole engine unchanged. -/
theorem mixTrackDispatch_pastEnd {RS : Type} [Inhabited RS] (m : Mixer RS) (ii k : ℕ)
    (hvr : m.params.variableRates = false)
    (hrate : (m.tracks.getD ii trackDefault).rate = m.rate)
    (hpast : pastTheEnd m.T0 m.T1 (m.tracks.getD ii trackDefault)
      (m.samplePos.getD ii 0) = true) :
    mixTrackDispatch m ii k = (0, [], m) := by
  unfold mixTrackDispatch
  dsimp only
  have hcond : ¬(m.params.variableRates = true ∨
      (m.tracks.getD ii trackDefault).rate ≠ m.rate) := by
    rintro (h | h)
    · rw [hvr] at h
      exact Bool.false_ne_true h
    · exact h hrate
  rw [if_neg hcond, mixSameRate_pastTheEnd _ _ _ _ _ _ hpast]
  simp only [list_set_getD]

/-- When every input is constant-rate at the output rate and at or past
its effective end, the outer track loop produces nothing and changes
only accumulators. -/
theorem processGroups_pastEnd {RS : Type} [Inhabited RS] (k : ℕ) (b : Bool) (fuel : ℕ) :
    ∀ (i : ℕ) (m : Mixer RS) (mo : ℕ) (nt : ℚ),
      m.params.variableRates = false →
      (∀ ii, ii < m.tracks.length → (m.tracks.getD ii trackDefault).rate = m.rate) →
      (∀ ii, ii < m.tracks.length →
        pastTheEnd m.T0 m.T1 (m.tracks.getD ii trackDefault) (m.samplePos.getD ii 0) = true) →
      (processGroups k b fuel i m mo nt).2.1 = mo ∧
      TempShape m (processGroups k b fuel i m mo nt).1 := by
  induction fuel with
  | zero => intro i m mo nt _ _ _; exact ⟨rfl, tempShape_refl m⟩
  | succ n ih =>
    intro i m mo nt hvr hrate hpast
    rw [processGroups]
    dsimp only
    split
    · split
      · exact ⟨rfl, tempShape_refl m⟩
      · rename_i hi hguard
        have hlim : i + min (m.tracks.getD i trackDefault).nGroup 2 ≤ m.tracks.length := by
          push_neg at hguard
          have := hguard.2
          omega
        have hgz : (mixGroupTracks i k (min (m.tracks.getD i trackDefault).nGroup 2)
              b m mo nt).1 = m ∧
            (mixGroupTracks i k (min (m.tracks.getD i trackDefault).nGroup 2)
              b m mo nt).2.2.1 = mo := by
          unfold mixGroupTracks
          have := foldl_mem_inv (mixGroupStep i k b)
            (fun acc => acc.1 = m ∧ acc.2.2.1 = mo)
            (List.range (min (m.tracks.getD i trackDefault).nGroup 2))
            (fun acc j hj ha => by
              unfold mixGroupStep
              dsimp only
              have hjlt : j < min (m.tracks.getD i trackDefault).nGroup 2 :=
                List.mem_range.mp hj
              have hii : i + j < m.tracks.length := by omega
              rw [ha.1, mixTrackDispatch_pastEnd m (i + j) k hvr
                (hrate _ hii) (hpast _ hii)]
              exact ⟨rfl, by simpa using ha.2⟩)
            (m, [], mo, nt) ⟨rfl, rfl⟩
          exact this
        rw [hgz.1]
        obtain ⟨tp, hacc⟩ := accumGroup_shape m i
          (min (m.tracks.getD i trackDefault).nGroup 2)
          (mixGroupTracks i k (min (m.tracks.getD i trackDefault).nGroup 2) b m mo nt).2.1
        rw [hacc]
        have hrec := ih (i + (m.tracks.getD i trackDefault).nGroup)
          { m with temp := tp }
          (mixGroupTracks i k (min (m.tracks.getD i trackDefault).nGroup 2) b m mo nt).2.2.1
          (mixGroupTracks i k (min (m.tracks.getD i trackDefault).nGroup 2) b m mo nt).2.2.2
          hvr hrate hpast
        refine ⟨?_, ?_⟩
        · rw [hrec.1, hgz.2]
        · exact tempShape_trans ⟨tp, rfl⟩ hrec.2
    · exact ⟨rfl, tempShape_refl m⟩

/-- When every input is constant-rate at the output rate and at or past
its effective end, Process returns 0. -/
theorem process_pastEnd {RS : Type} [Inhabited RS] (m : Mixer RS) (k : ℕ)
    (hvr : m.params.variableRates = false)
    (hrate : ∀ ii, ii < m.tracks.length → (m.tracks.getD ii trackDefault).rate = m.rate)
    (hpast : ∀ ii, ii < m.tracks.length →
      pastTheEnd m.T0 m.T1 (m.tracks.getD ii trackDefault) (m.samplePos.getD ii 0) = true) :
    (process m k).1 = 0 := by
  unfold process
  dsimp only
  exact (processGroups_pastEnd k (decide (m.T1 < m.T0)) m.tracks.length 0
    { m with temp := (List.range m.numChannels).map fun _ => List.replicate m.bufferSize 0 }
    0 m.time hvr hrate hpast).1

/-- Any entry of a zero-filled buffer is zero. -/
theorem getD_replicate_zero (n i : ℕ) : (List.replicate n (0 : ℚ)).getD i 0 = 0 := by
  induction n generalizing i with
  | zero => rfl
  | succ k ih =>
    cases i with
    | zero => rfl
    | succ j => exact ih j

/-- When every read fails, the refill step of MixVariableRates appends
only zeros to the queue, whatever the envelope values are. -/
theorem mvrRefill_nullfill (backwards : Bool) (endPos : ℤ) (tr : Track) (pos : ℤ)
    (q : ℕ → ℚ) (qStart qLen : ℕ) (j : ℕ)
    (hfail : ∀ s l, tr.readOk s l = false)
    (hj1 : qLen ≤ j) (hj2 : j < (mvrRefill backwards endPos tr pos q qStart qLen).2.2.2) :
    (mvrRefill backwards endPos tr pos q qStart qLen).2.1 j = 0 := by
  unfold mvrRefill at hj2 ⊢
  dsimp only at hj2 ⊢
  by_cases h1 : qLen < sProcessLen
  · rw [if_pos h1] at hj2 ⊢
    by_cases h2 : 0 < limitSampleBufferSize (sQueueMaxLen - qLen)
        (if backwards then pos - endPos else endPos - pos)
    · rw [if_pos h2] at hj2 ⊢
      dsimp only at hj2 ⊢
      simp only [getFloats, hfail, Bool.false_eq_true, if_false, Option.getD_none]
      rw [zipWith_mul_replicate_zero, envValues_length, min_self]
      have hwrite : ∀ jj, qLen ≤ jj →
          jj < qLen + limitSampleBufferSize (sQueueMaxLen - qLen)
            (if backwards then pos - endPos else endPos - pos) →
          writeSeg (compactQueue q qStart qLen) qLen
            (List.replicate (limitSampleBufferSize (sQueueMaxLen - qLen)
              (if backwards then pos - endPos else endPos - pos)) 0) jj = 0 := by
        intro jj hjj1 hjj2
        unfold writeSeg
        rw [List.length_replicate, if_pos ⟨hjj1, hjj2⟩]
        exact getD_replicate_zero _ _
      by_cases hb : backwards = true
      · rw [if_pos hb]
        unfold reverseSeg
        rw [if_pos ⟨hj1, hj2⟩]
        apply hwrite
        · omega
        · omega
      · rw [if_neg hb]
        exact hwrite j hj1 hj2
    · rw [if_neg h2] at hj2
      dsimp only at hj2
      omega
  · rw [if_neg h1] at hj2
    dsimp only at hj2
    omega

/-- The column-zeroing loop preserves the row length. -/
theorem zeroColsFrom_length (lo hi kk : ℕ) (row : List Bool) :
    (zeroColsFrom lo hi kk row).length = row.length := by
  induction row generalizing kk with
  | nil => rfl
  | cons b r ih => simp [zeroColsFrom, ih]

/-- Entrywise description of the column-zeroing loop. -/
theorem zeroColsFrom_getD (lo hi : ℕ) (row : List Bool) :
    ∀ (kk j : ℕ), (zeroColsFrom lo hi kk row).getD j false =
      if lo ≤ kk + j ∧ kk + j < hi then false else row.getD j false := by
  induction row with
  | nil =>
    intro kk j
    simp [zeroColsFrom]
  | cons b r ih =>
    intro kk j
    cases j with
    | zero => simp [zeroColsFrom]
    | succ jj =>
      have h := ih (kk + 1) jj
      have harith : kk + 1 + jj = kk + (jj + 1) := by omega
      rw [harith] at h
      exact h

/-- Entrywise description of zeroCols. -/
theorem zeroCols_getD (lo hi j : ℕ) (row : List Bool) :
    (zeroCols row lo hi).getD j false =
      if lo ≤ j ∧ j < hi then false else row.getD j false := by
  unfold zeroCols
  have h := zeroColsFrom_getD lo hi row 0 j
  simpa using h

/-- zeroCols preserves the row length. -/
theorem zeroCols_length (lo hi : ℕ) (row : List Bool) :
    (zeroCols row lo hi).length = row.length := zeroColsFrom_length lo hi 0 row

/-- The trivial resampler satisfies the resampler contract. -/
theorem rsTrivial_contract : RsContract rsTrivial :=
  fun _ _ _ _ _ _ => ⟨Nat.zero_le _, Nat.zero_le _⟩

/-- C1: for every engine state and maxToProcess at most the buffer size,
Mixer::Process returns a count at most maxToProcess; the per-track
routines MixSameRate and MixVariableRates each return at most the maxOut
they were given (for MixVariableRates and Process, under the spec
contract that the resampler produces at most the room it was offered). -/
theorem C1_returned_count_le {RS : Type} [Inhabited RS] (m : Mixer RS)
    (maxToProcess : ℕ) (rsP : RsImpl RS) (envO : Option BoundedEnvelope)
    (mRate speed T0 T1 : ℚ) (tr : Track) (pos : ℤ) (st : VRState RS) (maxOut : ℕ)
    (hc : RsContract rsP) (hcm : RsContract m.rsProcess)
    (hmax : maxToProcess ≤ m.bufferSize) :
    (mixSameRate T0 T1 mRate tr pos maxOut).1 ≤ maxOut ∧
    (mixVariableRates rsP envO mRate speed T0 T1 tr st maxOut).1 ≤ maxOut ∧
    (process m maxToProcess).1 ≤ maxToProcess :=
  ⟨mixSameRate_le T0 T1 mRate tr pos maxOut,
   mixVariableRates_le rsP envO mRate speed T0 T1 tr st maxOut hc,
   process_le m maxToProcess hcm⟩

/-- Witness for C1 at a concrete engine. -/
theorem C1_returned_count_le_witness :
    RsContract rsTrivial ∧ RsContract mixerA.rsProcess ∧ (3 : ℕ) ≤ mixerA.bufferSize ∧
    ((mixSameRate 0 2 1 trackA 0 3).1 ≤ 3 ∧
     (mixVariableRates rsTrivial none 1 1 0 2 trackA vrStateA 3).1 ≤ 3 ∧
     (process mixerA 3).1 ≤ 3) :=
  ⟨rsTrivial_contract, rsTrivial_contract, by decide,
   C1_returned_count_le mixerA 3 rsTrivial none 1 1 0 2 trackA 0 vrStateA 3
     rsTrivial_contract rsTrivial_contract (by decide)⟩

/-- C2: Reposition(t, false) clamps the current time to
clamp(t, min(T0,T1), max(T0,T1)) as MixGetCurrentTime then reports, and
resets every per-input cursor to TimeToLongSamples of the clamped time
with an emptied queue. -/
theorem C2_reposition_time_state {RS : Type} (m : Mixer RS) (t : ℚ) (i : ℕ)
    (hi : i < m.tracks.length) :
    mixGetCurrentTime (reposition m t false) =
      stdClamp t (min m.T0 m.T1) (max m.T0 m.T1) ∧
    (reposition m t false).samplePos.getD i 0 =
      timeToLongSamples (m.tracks.getD i trackDefault).rate
        (stdClamp t (min m.T0 m.T1) (max m.T0 m.T1)) ∧
    (reposition m t false).queueStart.getD i 0 = 0 ∧
    (reposition m t false).queueLen.getD i 0 = 0 := by
  have hclamp : (if m.T1 < m.T0 then stdClamp t m.T1 m.T0 else stdClamp t m.T0 m.T1) =
      stdClamp t (min m.T0 m.T1) (max m.T0 m.T1) := by
    by_cases h : m.T1 < m.T0
    · rw [if_pos h, min_eq_right (le_of_lt h), max_eq_left (le_of_lt h)]
    · rw [if_neg h, min_eq_left (le_of_not_lt h), max_eq_right (le_of_not_lt h)]
  unfold reposition mixGetCurrentTime
  dsimp only
  rw [if_neg Bool.false_ne_true]
  refine ⟨hclamp, ?_, ?_, ?_⟩
  · rw [getD_map_of_lt m.tracks _ i hi 0 trackDefault, hclamp]
  · rw [getD_map_of_lt m.tracks _ i hi 0 trackDefault]
  · rw [getD_map_of_lt m.tracks _ i hi 0 trackDefault]

/-- Witness for C2 at a concrete engine and time outside the bounds. -/
theorem C2_reposition_time_state_witness :
    0 < mixerA.tracks.length ∧
    (mixGetCurrentTime (reposition mixerA 5 false) =
      stdClamp 5 (min mixerA.T0 mixerA.T1) (max mixerA.T0 mixerA.T1) ∧
    (reposition mixerA 5 false).samplePos.getD 0 0 =
      timeToLongSamples (mixerA.tracks.getD 0 trackDefault).rate
        (stdClamp 5 (min mixerA.T0 mixerA.T1) (max mixerA.T0 mixerA.T1)) ∧
    (reposition mixerA 5 false).queueStart.getD 0 0 = 0 ∧
    (reposition mixerA 5 false).queueLen.getD 0 0 = 0) :=
  ⟨by decide, C2_reposition_time_state mixerA 5 0 (by decide)⟩

/-- C3: when GetFloats returns null (read failure with mayThrow false),
the read range is zero-filled before the envelope is applied, so the
produced MixSameRate block is all zeros, its accumulated contribution
through MixBuffers is exactly nothing, and the samples the
MixVariableRates refill step appends to the queue are all zeros — all
regardless of the envelope values. -/
theorem C3_null_read_zero_contribution (T0 T1 mRate : ℚ) (tr : Track) (pos : ℤ)
    (maxOut : ℕ) (backwards : Bool) (endPos : ℤ) (q : ℕ → ℚ) (qStart qLen j k : ℕ)
    (flags : List Bool) (gains : List ℚ) (dests : List (List ℚ))
    (hfail : ∀ s l, tr.readOk s l = false)
    (hf : dests.length ≤ flags.length) (hg : dests.length ≤ gains.length)
    (hj1 : qLen ≤ j) (hj2 : j < (mvrRefill backwards endPos tr pos q qStart qLen).2.2.2) :
    (mixSameRate T0 T1 mRate tr pos maxOut).2.1 =
      List.replicate (mixSameRate T0 T1 mRate tr pos maxOut).1 0 ∧
    mixBuffers flags gains (mixSameRate T0 T1 mRate tr pos maxOut).2.1 dests = dests ∧
    mixBuffers flags gains (List.replicate k 0) dests = dests ∧
    (mvrRefill backwards endPos tr pos q qStart qLen).2.1 j = 0 := by
  have h1 := mixSameRate_nullfill T0 T1 mRate tr pos maxOut hfail
  refine ⟨h1, ?_, mixBuffers_replicate_zero flags gains k dests hf hg,
    mvrRefill_nullfill backwards endPos tr pos q qStart qLen j hfail hj1 hj2⟩
  rw [h1]
  exact mixBuffers_replicate_zero flags gains _ dests hf hg

/-- Witness for C3 at a concrete failing track. -/
theorem C3_null_read_zero_contribution_witness :
    (∀ s l, trackFail.readOk s l = false) ∧
    ([[5, 6]] : List (List ℚ)).length ≤ ([true] : List Bool).length ∧
    ([[5, 6]] : List (List ℚ)).length ≤ ([1] : List ℚ).length ∧
    (0 : ℕ) ≤ 0 ∧ 0 < (mvrRefill false 2 trackFail 0 (fun _ => 0) 0 0).2.2.2 ∧
    ((mixSameRate 0 2 1 trackFail 0 4).2.1 =
      List.replicate (mixSameRate 0 2 1 trackFail 0 4).1 0 ∧
    mixBuffers [true] [1] (mixSameRate 0 2 1 trackFail 0 4).2.1 [[5, 6]] = [[5, 6]] ∧
    mixBuffers [true] [1] (List.replicate 2 0) [[5, 6]] = [[5, 6]] ∧
    (mvrRefill false 2 trackFail 0 (fun _ => 0) 0 0).2.1 0 = 0) :=
  ⟨fun _ _ => rfl, by decide, by decide, by decide, by decide,
   C3_null_read_zero_contribution 0 2 1 trackFail 0 4 false 2 (fun _ => 0) 0 0 0 2
     [true] [1] [[5, 6]] (fun _ _ => rfl) (by decide) (by decide) (by decide) (by decide)⟩

/-- C4: MixSameRate returns 0 and advances nothing whenever the current
position time has reached or passed the effective end (backwards:
t <= tEnd with tEnd = max(trackStart, T1); forwards: t >= tEnd with
tEnd = min(trackEnd, T1)); consequently, when every input is in that
state (constant-rate at the output rate), Process returns 0. -/
theorem C4_end_of_interval {RS : Type} [Inhabited RS] (m : Mixer RS)
    (maxToProcess : ℕ) (T0 T1 mRate : ℚ) (tr : Track) (pos : ℤ) (maxOut : ℕ)
    (hpast1 : pastTheEnd T0 T1 tr pos = true)
    (hvr : m.params.variableRates = false)
    (hrate : ∀ ii, ii < m.tracks.length → (m.tracks.getD ii trackDefault).rate = m.rate)
    (hpast : ∀ ii, ii < m.tracks.length →
      pastTheEnd m.T0 m.T1 (m.tracks.getD ii trackDefault) (m.samplePos.getD ii 0) = true) :
    mixSameRate T0 T1 mRate tr pos maxOut = (0, [], pos) ∧
    (process m maxToProcess).1 = 0 :=
  ⟨mixSameRate_pastTheEnd T0 T1 mRate tr pos maxOut hpast1,
   process_pastEnd m maxToProcess hvr hrate hpast⟩

/-- Witness for C4 at a concrete exhausted engine. -/
theorem C4_end_of_interval_witness :
    pastTheEnd 3 3 trackA 3 = true ∧
    mixerEnd.params.variableRates = false ∧
    (∀ ii, ii < mixerEnd.tracks.length →
      (mixerEnd.tracks.getD ii trackDefault).rate = mixerEnd.rate) ∧
    (∀ ii, ii < mixerEnd.tracks.length →
      pastTheEnd mixerEnd.T0 mixerEnd.T1 (mixerEnd.tracks.getD ii trackDefault)
        (mixerEnd.samplePos.getD ii 0) = true) ∧
    (mixSameRate 3 3 1 trackA 3 4 = (0, [], 3) ∧ (process mixerEnd 4).1 = 0) :=
  ⟨by decide, by decide, by decide, by decide,
   C4_end_of_interval mixerEnd 4 3 3 1 trackA 3 4 (by decide) (by decide)
     (by decide) (by decide)⟩

/-- C5 counterexample: at the concrete state mixerC5 (start time 3/5,
sample rate 1, so the cursor rounded up to 1), Process(0) returns 0 but
moves mTime from 3/5 to 1: the claim that Process(0) leaves the current
time unchanged is false. -/
theorem C5_counterexample :
    (process mixerC5 0).1 = 0 ∧ ¬((process mixerC5 0).2.time = mixerC5.time) := by
  constructor
  · decide
  · decide

/-- C5 (amended): Process(0) returns 0 and leaves every per-input sample
cursor, queue and resampler untouched; the current time, however, is
still re-clamped between its old value and T1 from the per-input sample
positions and may move. -/
theorem C5_process_zero_amended {RS : Type} [Inhabited RS] (m : Mixer RS) :
    (process m 0).1 = 0 ∧
    (process m 0).2.samplePos = m.samplePos ∧
    (process m 0).2.queueBuf = m.queueBuf ∧
    (process m 0).2.queueStart = m.queueStart ∧
    (process m 0).2.queueLen = m.queueLen ∧
    (process m 0).2.resamplers = m.resamplers ∧
    ∃ nt, (process m 0).2.time =
      if m.T1 < m.T0 then stdClamp nt m.T1 m.time else stdClamp nt m.time m.T1 := by
  obtain ⟨h1, h2, h3, h4, h5, h6⟩ := process_zero_state m
  exact ⟨h1, h2, h3, h4, h5, h6, (process_time_shape m 0).2.2⟩

/-- C6: SetSpeedForKeyboardScrubbing with a speed whose sign disagrees
with the current play direction sets the inactive bound to 0 and the
active bound to the largest finite double, repositions at startTime with
skipping (so every resampler is recreated inside Reposition), and in all
cases stores |speed| as the current speed. -/
theorem C6_keyboard_scrubbing_flip {RS : Type} (m : Mixer RS) (speed startTime : ℚ)
    (h : (0 < speed ∧ m.T1 < m.T0) ∨ (speed < 0 ∧ m.T0 < m.T1)) :
    setSpeedForKeyboardScrubbing m speed startTime =
      { reposition
          { m with
            T0 := if 0 < speed then 0 else doubleMax
            T1 := if 0 < speed then doubleMax else 0 }
          startTime true with
        speed := |speed| } ∧
    ∀ (m2 : Mixer RS) (s2 t2 : ℚ), (setSpeedForKeyboardScrubbing m2 s2 t2).speed = |s2| := by
  constructor
  · unfold setSpeedForKeyboardScrubbing
    dsimp only
    rw [if_pos h]
    rcases h with ⟨hs, hT⟩ | ⟨hs, hT⟩
    · rw [if_pos ⟨hs, hT⟩, if_pos hs, if_pos hs]
    · have hns : ¬(0 < speed) := not_lt.mpr (le_of_lt hs)
      rw [if_neg fun hh => hns hh.1, if_neg hns, if_neg hns]
  · intro m2 s2 t2
    rfl

/-- Witness for C6 at a concrete backwards engine and positive speed. -/
theorem C6_keyboard_scrubbing_flip_witness :
    ((0 < (1 : ℚ) ∧ mixerC6.T1 < mixerC6.T0) ∨ ((1 : ℚ) < 0 ∧ mixerC6.T0 < mixerC6.T1)) ∧
    setSpeedForKeyboardScrubbing mixerC6 1 0 =
      { reposition
          { mixerC6 with
            T0 := if (0 : ℚ) < 1 then 0 else doubleMax
            T1 := if (0 : ℚ) < 1 then doubleMax else 0 }
          0 true with
        speed := |(1 : ℚ)| } ∧
    (setSpeedForKeyboardScrubbing mixerC6 1 0).speed = |(1 : ℚ)| :=
  ⟨Or.inl ⟨by decide, by decide⟩,
   (C6_keyboard_scrubbing_flip mixerC6 1 0 (Or.inl ⟨by decide, by decide⟩)).1,
   (C6_keyboard_scrubbing_flip mixerC6 1 0 (Or.inl ⟨by decide, by decide⟩)).2 mixerC6 1 0⟩

/-- C7 counterexample: growing a routing map from 1 to 2 active channels
(2 <= maxNumChannels) changes an entry outside the columns
[n, previous) = [2, 1) = empty set, contradicting the claim that all
other map entries are unchanged: SetNumChannels also zeroes the newly
activated columns. -/
theorem C7_counterexample :
    (Downmix.setNumChannels d7c 2).1 = true ∧
    ¬((Downmix.setNumChannels d7c 2).2.map = d7c.map) := by
  constructor
  · decide
  · decide

/-- C7 (amended): SetNumChannels(n) with n equal to the current count
returns true and changes nothing; with n > maxNumChannels it returns
false and changes nothing; otherwise it returns true, sets
numChannels = n, and zeroes the columns between the old and the new
count (in both directions of resizing), leaving every other entry
unchanged. -/
theorem C7_setNumChannels_amended (d : Downmix) (n i j : ℕ) :
    (d.numChannels = n → Downmix.setNumChannels d n = (true, d)) ∧
    (d.numChannels ≠ n → d.maxNumChannels < n →
      Downmix.setNumChannels d n = (false, d)) ∧
    (d.numChannels ≠ n → n ≤ d.maxNumChannels →
      (Downmix.setNumChannels d n).1 = true ∧
      (Downmix.setNumChannels d n).2.numChannels = n ∧
      (Downmix.setNumChannels d n).2.numTracks = d.numTracks ∧
      (Downmix.setNumChannels d n).2.maxNumChannels = d.maxNumChannels ∧
      (i < d.map.length →
        mapEntry (Downmix.setNumChannels d n).2 i j =
          (if min n d.numChannels ≤ j ∧ j < max n d.numChannels then false
           else mapEntry d i j))) := by
  unfold Downmix.setNumChannels
  refine ⟨?_, ?_, ?_⟩
  · intro h
    rw [if_pos h]
  · intro h1 h2
    rw [if_neg h1, if_pos h2]
  · intro h1 h2
    rw [if_neg h1, if_neg (not_lt.mpr h2)]
    refine ⟨rfl, rfl, rfl, rfl, ?_⟩
    intro hi
    unfold mapEntry
    dsimp only
    rw [getD_map_of_lt d.map _ i hi [] [], zeroCols_getD, zeroCols_getD]
    split_ifs <;> first | rfl | (exfalso; omega)

/-- Witness for C7 (amended) at a concrete growth from 1 to 2 active
channels, observing the cleared entry. -/
theorem C7_setNumChannels_amended_witness :
    d7c.numChannels ≠ 2 ∧ 2 ≤ d7c.maxNumChannels ∧ 0 < d7c.map.length ∧
    ((Downmix.setNumChannels d7c 2).1 = true ∧
     (Downmix.setNumChannels d7c 2).2.numChannels = 2 ∧
     (Downmix.setNumChannels d7c 2).2.numTracks = d7c.numTracks ∧
     (Downmix.setNumChannels d7c 2).2.maxNumChannels = d7c.maxNumChannels ∧
     mapEntry (Downmix.setNumChannels d7c 2).2 0 1 =
       (if min 2 d7c.numChannels ≤ 1 ∧ 1 < max 2 d7c.numChannels then false
        else mapEntry d7c 0 1)) := by
  have h := (C7_setNumChannels_amended d7c 2 0 1).2.2 (by decide) (by decide)
  exact ⟨by decide, by decide, by decide,
    h.1, h.2.1, h.2.2.1, h.2.2.2.1, h.2.2.2.2 (by decide)⟩

/-- C8: the ResampleParameters constructor produces, per input track
with positive rate (and positive output rate), a positive ordered pair
(minFactor, maxFactor): with an envelope (whose bounds satisfy
0 < lower <= upper per the BoundedEnvelope contract) the pair is
(factor/rangeUpper, factor/rangeLower); with positive speed bounds it is
(factor/maxSpeed, factor/minSpeed); otherwise both equal
factor = outputRate/trackRate; and the Warp speed constructor normalizes
its pair so 0 <= minSpeed <= maxSpeed.  Finiteness is intrinsic to the
exact rational model. -/
theorem C8_resample_parameters (tracks : List Track) (rate : ℚ) (w : Warp)
    (i : ℕ) (mn mx ini : ℚ) (hi : i < tracks.length) (hrate : 0 < rate)
    (htr : ∀ tr ∈ tracks, 0 < tr.rate)
    (henv : ∀ e, w.envelope = some e → 0 < e.rangeLower ∧ e.rangeLower ≤ e.rangeUpper)
    (hsp : w.minSpeed ≤ w.maxSpeed) :
    (0 < (resampleParameters tracks rate w).minFactor.getD i 0 ∧
     0 < (resampleParameters tracks rate w).maxFactor.getD i 0 ∧
     (resampleParameters tracks rate w).minFactor.getD i 0 ≤
       (resampleParameters tracks rate w).maxFactor.getD i 0) ∧
    (∀ e, w.envelope = some e →
      (resampleParameters tracks rate w).minFactor.getD i 0 =
        rate / (tracks.getD i trackDefault).rate / e.rangeUpper ∧
      (resampleParameters tracks rate w).maxFactor.getD i 0 =
        rate / (tracks.getD i trackDefault).rate / e.rangeLower) ∧
    (w.envelope = none → 0 < w.minSpeed → 0 < w.maxSpeed →
      (resampleParameters tracks rate w).minFactor.getD i 0 =
        rate / (tracks.getD i trackDefault).rate / w.maxSpeed ∧
      (resampleParameters tracks rate w).maxFactor.getD i 0 =
        rate / (tracks.getD i trackDefault).rate / w.minSpeed) ∧
    (w.envelope = none → ¬(0 < w.minSpeed ∧ 0 < w.maxSpeed) →
      (resampleParameters tracks rate w).minFactor.getD i 0 =
        rate / (tracks.getD i trackDefault).rate ∧
      (resampleParameters tracks rate w).maxFactor.getD i 0 =
        rate / (tracks.getD i trackDefault).rate) ∧
    (0 ≤ (Warp.ofBounds mn mx ini).minSpeed ∧
     (Warp.ofBounds mn mx ini).minSpeed ≤ (Warp.ofBounds mn mx ini).maxSpeed) := by
  have hmem : tracks.getD i trackDefault ∈ tracks := by
    rw [List.getD_eq_getElem tracks trackDefault hi]
    exact List.getElem_mem hi
  have htri : 0 < (tracks.getD i trackDefault).rate := htr _ hmem
  have hfac : 0 < rate / (tracks.getD i trackDefault).rate := div_pos hrate htri
  have hminD : (resampleParameters tracks rate w).minFactor.getD i 0 =
      (resampleFactors rate w (tracks.getD i trackDefault)).1 := by
    unfold resampleParameters
    exact getD_map_of_lt tracks _ i hi 0 trackDefault
  have hmaxD : (resampleParameters tracks rate w).maxFactor.getD i 0 =
      (resampleFactors rate w (tracks.getD i trackDefault)).2 := by
    unfold resampleParameters
    exact getD_map_of_lt tracks _ i hi 0 trackDefault
  rw [hminD, hmaxD]
  unfold resampleFactors
  dsimp only
  refine ⟨?_, ?_, ?_, ?_, ?_⟩
  · cases hE : w.envelope with
    | some e =>
      obtain ⟨hlow, hle⟩ := henv e hE
      have hup : 0 < e.rangeUpper := lt_of_lt_of_le hlow hle
      refine ⟨div_pos hfac hup, div_pos hfac hlow, ?_⟩
      exact div_le_div_of_nonneg_left hfac.le hlow hle
    | none =>
      dsimp only
      by_cases hps : 0 < w.minSpeed ∧ 0 < w.maxSpeed
      · rw [if_pos hps]
        refine ⟨div_pos hfac hps.2, div_pos hfac hps.1, ?_⟩
        exact div_le_div_of_nonneg_left hfac.le hps.1 hsp
      · rw [if_neg hps]
        exact ⟨hfac, hfac, le_refl _⟩
  · intro e hE
    rw [hE]
    dsimp only
    exact ⟨rfl, rfl⟩
  · intro hE h1 h2
    rw [hE]
    dsimp only
    rw [if_pos ⟨h1, h2⟩]
    exact ⟨rfl, rfl⟩
  · intro hE hps
    rw [hE]
    dsimp only
    rw [if_neg hps]
    exact ⟨rfl, rfl⟩
  · unfold Warp.ofBounds
    dsimp only
    constructor
    · exact le_max_left 0 _
    · rcases le_total mn mx with h | h
      · rw [min_eq_left h, max_eq_right h]
        exact max_le_max (le_refl 0) h
      · rw [min_eq_right h, max_eq_left h]
        exact max_le_max (le_refl 0) h

/-- Witness for C8 at a concrete envelope-driven warp. -/
theorem C8_resample_parameters_witness :
    0 < ([trackA] : List Track).length ∧ (0 : ℚ) < 2 ∧
    (∀ tr ∈ ([trackA] : List Track), 0 < tr.rate) ∧
    (∀ e, (Warp.ofEnvelope ⟨fun _ _ => 1, 1/2, 2⟩ 1).envelope = some e →
      0 < e.rangeLower ∧ e.rangeLower ≤ e.rangeUpper) ∧
    (Warp.ofEnvelope ⟨fun _ _ => 1, 1/2, 2⟩ 1).minSpeed ≤
      (Warp.ofEnvelope ⟨fun _ _ => 1, 1/2, 2⟩ 1).maxSpeed ∧
    (0 < (resampleParameters [trackA] 2 (Warp.ofEnvelope ⟨fun _ _ => 1, 1/2, 2⟩ 1)).minFactor.getD 0 0 ∧
     0 < (resampleParameters [trackA] 2 (Warp.ofEnvelope ⟨fun _ _ => 1, 1/2, 2⟩ 1)).maxFactor.getD 0 0 ∧
     (resampleParameters [trackA] 2 (Warp.ofEnvelope ⟨fun _ _ => 1, 1/2, 2⟩ 1)).minFactor.getD 0 0 ≤
       (resampleParameters [trackA] 2 (Warp.ofEnvelope ⟨fun _ _ => 1, 1/2, 2⟩ 1)).maxFactor.getD 0 0) := by
  have henv : ∀ e, (Warp.ofEnvelope ⟨fun _ _ => 1, 1/2, 2⟩ 1).envelope = some e →
      0 < e.rangeLower ∧ e.rangeLower ≤ e.rangeUpper := by
    intro e hE
    cases hE
    constructor
    · decide
    · decide
  exact ⟨by decide, by decide,
    (by intro tr htr; rw [List.mem_singleton] at htr; rw [htr]; decide), henv, by decide,
    (C8_resample_parameters [trackA] 2 (Warp.ofEnvelope ⟨fun _ _ => 1, 1/2, 2⟩ 1) 0 0 0 1
      (by decide) (by decide)
      (by intro tr htr; rw [List.mem_singleton] at htr; rw [htr]; decide)
      henv (by decide)).1⟩

/-- C9: the Mixer constructor keeps a supplied routing map only when its
channel count equals the output channel count and its track count equals
the number of inputs; any other supplied map is stored as null, and the
resulting engine is identical to one constructed with no map at all. -/
theorem C9_routeMap_acceptance {RS : Type} (inputTracks : List Track) (mayThrow : Bool)
    (w : Warp) (t0 t1 : ℚ) (numOut bufSize : ℕ) (outRate : ℚ) (hq : Bool)
    (sp : Downmix) (ag : Bool) (mk : Bool → ℚ → ℚ → RS) (rsP : RsImpl RS) :
    ((sp.numChannels = numOut ∧ sp.numTracks = inputTracks.length) →
      (mkMixer inputTracks mayThrow w t0 t1 numOut bufSize outRate hq (some sp) ag
        mk rsP).mixerSpec = some sp) ∧
    (¬(sp.numChannels = numOut ∧ sp.numTracks = inputTracks.length) →
      mkMixer inputTracks mayThrow w t0 t1 numOut bufSize outRate hq (some sp) ag mk rsP =
      mkMixer inputTracks mayThrow w t0 t1 numOut bufSize outRate hq none ag mk rsP) ∧
    (mkMixer inputTracks mayThrow w t0 t1 numOut bufSize outRate hq none ag
      mk rsP).mixerSpec = none := by
  unfold mkMixer makeResamplers
  refine ⟨?_, ?_, rfl⟩
  · intro h
    dsimp only
    rw [if_pos h]
  · intro h
    dsimp only
    rw [if_neg h]

/-- Witness for C9 at a concrete accepted and a concrete rejected map. -/
theorem C9_routeMap_acceptance_witness :
    ((Downmix.make 1 1).numChannels = 1 ∧ (Downmix.make 1 1).numTracks =
      ([trackA] : List Track).length) ∧
    (mkMixer [trackA] false (Warp.ofBounds 0 0 1) 0 2 1 4 1 false
      (some (Downmix.make 1 1)) false (fun _ _ _ => ()) rsTrivial).mixerSpec =
      some (Downmix.make 1 1) ∧
    ¬((Downmix.make 2 2).numChannels = 1 ∧ (Downmix.make 2 2).numTracks =
      ([trackA] : List Track).length) ∧
    mkMixer [trackA] false (Warp.ofBounds 0 0 1) 0 2 1 4 1 false
      (some (Downmix.make 2 2)) false (fun _ _ _ => ()) rsTrivial =
    mkMixer [trackA] false (Warp.ofBounds 0 0 1) 0 2 1 4 1 false
      none false (fun _ _ _ => ()) rsTrivial :=
  ⟨⟨by decide, by decide⟩,
   (C9_routeMap_acceptance [trackA] false (Warp.ofBounds 0 0 1) 0 2 1 4 1 false
     (Downmix.make 1 1) false (fun _ _ _ => ()) rsTrivial).1 ⟨by decide, by decide⟩,
   by decide,
   (C9_routeMap_acceptance [trackA] false (Warp.ofBounds 0 0 1) 0 2 1 4 1 false
     (Downmix.make 2 2) false (fun _ _ _ => ()) rsTrivial).2.1 (by decide)⟩

/-- Reposition leaves the engine clock inside the direction-corrected
bounds. -/
theorem reposition_timeInvariant {RS : Type} (m : Mixer RS) (t : ℚ) (sk : Bool) :
    timeInvariant (reposition m t sk) := by
  unfold reposition timeInvariant makeResamplers
  dsimp only
  have hmain : ∀ u : ℚ,
      (u = if m.T1 < m.T0 then stdClamp t m.T1 m.T0 else stdClamp t m.T0 m.T1) →
      min m.T0 m.T1 ≤ u ∧ u ≤ max m.T0 m.T1 := by
    intro u hu
    by_cases h : m.T1 < m.T0
    · rw [if_pos h] at hu
      rw [min_eq_right (le_of_lt h), max_eq_left (le_of_lt h), hu]
      exact ⟨stdClamp_ge t _ _ (le_of_lt h), stdClamp_le t _ _ (le_of_lt h)⟩
    · rw [if_neg h] at hu
      rw [min_eq_left (le_of_not_lt h), max_eq_right (le_of_not_lt h), hu]
      exact ⟨stdClamp_ge t _ _ (le_of_not_lt h), stdClamp_le t _ _ (le_of_not_lt h)⟩
  split
  · exact hmain _ rfl
  · exact hmain _ rfl

/-- C10 (implicit invariant): after construction and after Reposition,
SetTimesAndSpeed, SetSpeedForKeyboardScrubbing and Process, the current
time lies in [min(T0,T1), max(T0,T1)] for the then-current bounds (for
the two speed calls and Process, assuming it held before, which
construction and Reposition establish); and Process moves the time only
monotonically toward T1: never past T1 and never back past its previous
value. -/
theorem C10_time_invariant {RS : Type} [Inhabited RS] (m : Mixer RS)
    (t t0 t1 sp st : ℚ) (sk : Bool) (k : ℕ)
    (inputTracks : List Track) (mayThrow : Bool) (w : Warp) (ct0 ct1 : ℚ)
    (numOut bufSize : ℕ) (outRate : ℚ) (hq : Bool) (spec : Option Downmix) (ag : Bool)
    (mk : Bool → ℚ → ℚ → RS) (rsP : RsImpl RS)
    (hm : timeInvariant m) :
    timeInvariant (mkMixer inputTracks mayThrow w ct0 ct1 numOut bufSize outRate hq
      spec ag mk rsP) ∧
    timeInvariant (reposition m t sk) ∧
    timeInvariant (setTimesAndSpeed m t0 t1 sp sk) ∧
    timeInvariant (setSpeedForKeyboardScrubbing m sp st) ∧
    timeInvariant (process m k).2 ∧
    (¬(m.T1 < m.T0) → m.time ≤ (process m k).2.time ∧ (process m k).2.time ≤ m.T1) ∧
    (m.T1 < m.T0 → m.T1 ≤ (process m k).2.time ∧ (process m k).2.time ≤ m.time) := by
  obtain ⟨hT0, hT1, nt, htime⟩ := process_time_shape m k
  have hforward : ¬(m.T1 < m.T0) →
      m.time ≤ (process m k).2.time ∧ (process m k).2.time ≤ m.T1 := by
    intro h
    rw [htime, if_neg h]
    have hle : m.time ≤ m.T1 := by
      have := hm.2
      rw [max_eq_right (le_of_not_lt h)] at this
      exact this
    exact ⟨stdClamp_ge nt _ _ hle, stdClamp_le nt _ _ hle⟩
  have hbackward : m.T1 < m.T0 →
      m.T1 ≤ (process m k).2.time ∧ (process m k).2.time ≤ m.time := by
    intro h
    rw [htime, if_pos h]
    have hle : m.T1 ≤ m.time := by
      have := hm.1
      rw [min_eq_right (le_of_lt h)] at this
      exact this
    exact ⟨stdClamp_ge nt _ _ hle, stdClamp_le nt _ _ hle⟩
  refine ⟨?_, reposition_timeInvariant m t sk, reposition_timeInvariant _ t0 sk, ?_, ?_, hforward, hbackward⟩
  · unfold timeInvariant mkMixer makeResamplers
    dsimp only
    exact ⟨min_le_left _ _, le_max_left _ _⟩
  · unfold setSpeedForKeyboardScrubbing
    dsimp only
    split
    · exact reposition_timeInvariant _ st true
    · exact hm
  · unfold timeInvariant
    rw [hT0, hT1]
    by_cases h : m.T1 < m.T0
    · have hb := hbackward h
      rw [min_eq_right (le_of_lt h), max_eq_left (le_of_lt h)]
      refine ⟨hb.1, le_trans hb.2 ?_⟩
      have := hm.2
      rw [max_eq_left (le_of_lt h)] at this
      exact this
    · have hf := hforward h
      rw [min_eq_left (le_of_not_lt h), max_eq_right (le_of_not_lt h)]
      refine ⟨le_trans ?_ hf.1, hf.2⟩
      have := hm.1
      rw [min_eq_left (le_of_not_lt h)] at this
      exact this

/-- Witness for C10 at a concrete engine. -/
theorem C10_time_invariant_witness :
    timeInvariant mixerA ∧
    (timeInvariant (mkMixer [trackA] false (Warp.ofBounds 0 0 1) 0 2 1 4 1 false none
      false (fun _ _ _ => ()) rsTrivial) ∧
    timeInvariant (reposition mixerA 5 false) ∧
    timeInvariant (setTimesAndSpeed mixerA 0 1 1 false) ∧
    timeInvariant (setSpeedForKeyboardScrubbing mixerA 1 0) ∧
    timeInvariant (process mixerA 2).2 ∧
    (¬(mixerA.T1 < mixerA.T0) →
      mixerA.time ≤ (process mixerA 2).2.time ∧ (process mixerA 2).2.time ≤ mixerA.T1) ∧
    (mixerA.T1 < mixerA.T0 →
      mixerA.T1 ≤ (process mixerA 2).2.time ∧ (process mixerA 2).2.time ≤ mixerA.time)) :=
  ⟨⟨by decide, by decide⟩,
   C10_time_invariant mixerA 5 0 1 1 0 false 2 [trackA] false (Warp.ofBounds 0 0 1) 0 2
     1 4 1 false none false (fun _ _ _ => ()) rsTrivial ⟨by decide, by decide⟩⟩
